import Mathlib

/-!
# Verification of the Tag Compliance Analysis Engine

A shallow embedding of `src/azure_reporter/modules/tag_analyzer.py`
(class `TagAnalyzer`) and proofs of the specification's claims about it.

Modelling conventions:
* Python values appearing in the input catalog are modelled by `PyVal`
  (`None`, booleans, integers, strings, lists, dicts).  Python dicts are
  modelled as insertion-ordered association lists; dict keys produced by
  genuine Python dicts are unique, but the model does not force this.
* Python `float` percentages are idealised as exact rationals `ℚ`;
  `round(x, 1)` is modelled by `round1` using round-half-to-even, Python's
  rounding convention on exactly representable values.
* Fallible Python code (the places where `analyze_resource_tags` can raise
  `TypeError`/`AttributeError` on malformed input) is modelled in
  `Except PyErr`.
* `str.lower` is modelled on ASCII letters and `str.strip` on the ASCII
  whitespace characters; `repr` of containers elides inner escaping of
  quote characters.  No claim exercises these corners.
-/

/-- A Python runtime value, as far as the tag analyzer inspects one. -/
inductive PyVal where
  | none : PyVal
  | bool : Bool → PyVal
  | int : Int → PyVal
  | str : String → PyVal
  | list : List PyVal → PyVal
  | dict : List (PyVal × PyVal) → PyVal

mutual
/-- Python `==` on the values above: `True == 1`, `False == 0`, otherwise
structural (container equality is elementwise; the analyzer only ever
compares hashable keys, so container order-sensitivity is never hit). -/
def pyEq : PyVal → PyVal → Bool
  | .none, .none => true
  | .bool a, .bool b => a == b
  | .bool a, .int n => (if a then (1 : Int) else 0) == n
  | .int n, .bool a => n == (if a then (1 : Int) else 0)
  | .int m, .int n => m == n
  | .str s, .str t => s == t
  | .list xs, .list ys => pyEqList xs ys
  | .dict xs, .dict ys => pyEqPairs xs ys
  | _, _ => false

def pyEqList : List PyVal → List PyVal → Bool
  | [], [] => true
  | x :: xs, y :: ys => pyEq x y && pyEqList xs ys
  | _, _ => false

def pyEqPairs : List (PyVal × PyVal) → List (PyVal × PyVal) → Bool
  | [], [] => true
  | (a, b) :: xs, (c, d) :: ys => pyEq a c && pyEq b d && pyEqPairs xs ys
  | _, _ => false
end

/-- Python truthiness of a value. -/
def pyTruthy : PyVal → Bool
  | .none => false
  | .bool b => b
  | .int n => n != 0
  | .str s => s != ""
  | .list xs => !xs.isEmpty
  | .dict xs => !xs.isEmpty

/-- Whether a value may be used as a Python dict key (is hashable). -/
def isHashable : PyVal → Bool
  | .list _ => false
  | .dict _ => false
  | _ => true

/-- Membership in a Python collection of values (`in` on a list of keys). -/
def pyMem (v : PyVal) (xs : List PyVal) : Bool := xs.any (fun x => pyEq v x)

/-- First-match lookup in a dict, `d.get(k, default)`. -/
def dictGetD (xs : List (PyVal × PyVal)) (k d : PyVal) : PyVal :=
  match xs.find? (fun p => pyEq p.1 k) with
  | some p => p.2
  | Option.none => d

/-- `k in d` for a Python dict. -/
def dictHas (xs : List (PyVal × PyVal)) (k : PyVal) : Bool :=
  (xs.find? (fun p => pyEq p.1 k)).isSome

/-- Python ASCII whitespace, as stripped by `str.strip()`. -/
def isPyWS (c : Char) : Bool :=
  c == ' ' || c == '\t' || c == '\n' || c == '\r' || c == '\x0b' || c == '\x0c'

/-- `str.strip()` on ASCII whitespace. -/
def pyStrip (s : String) : String :=
  String.mk (((s.toList.dropWhile isPyWS).reverse.dropWhile isPyWS).reverse)

/-- `str.lower()` (ASCII letters). -/
def pyLower (s : String) : String := String.mk (s.toList.map Char.toLower)

mutual
/-- Python `repr(v)` (string escaping of quote characters elided). -/
def pyRepr : PyVal → String
  | .none => "None"
  | .bool true => "True"
  | .bool false => "False"
  | .int n => toString n
  | .str s => "'" ++ s ++ "'"
  | .list xs => "[" ++ String.intercalate ", " (pyReprList xs) ++ "]"
  | .dict xs => "\x7b" ++ String.intercalate ", " (pyReprPairs xs) ++ "\x7d"

def pyReprList : List PyVal → List String
  | [] => []
  | x :: xs => pyRepr x :: pyReprList xs

def pyReprPairs : List (PyVal × PyVal) → List String
  | [] => []
  | (a, b) :: xs => (pyRepr a ++ ": " ++ pyRepr b) :: pyReprPairs xs
end

/-- Python `str(v)`: like `repr` except that a string is taken verbatim. -/
def pyStr : PyVal → String
  | .str s => s
  | v => pyRepr v

/-- Round-half-to-even to an integer (Python's `round` convention on
exactly representable values). -/
def roundHalfEven (q : ℚ) : ℤ :=
  let f := ⌊q⌋
  if q - f < 1/2 then f
  else if (1 : ℚ)/2 < q - f then f + 1
  else if f % 2 = 0 then f else f + 1

/-- Python `round(x, 1)` on the idealised rational percentages. -/
def round1 (q : ℚ) : ℚ := (roundHalfEven (q * 10) : ℚ) / 10

/-- The kinds of exception the analyzer can actually raise on malformed
input: iterating a non-iterable (`TypeError`), calling `.keys()`/`.items()`
on a non-dict (`AttributeError`), using an unhashable dict key
(`TypeError`). -/
inductive PyErr where
  | typeError : PyErr
  | attributeError : PyErr
deriving DecidableEq

/-- Worker for `dedupFirst`: drop elements already seen. -/
def dedupFirstAux (seen : List String) : List String → List String
  | [] => []
  | x :: xs =>
      if seen.contains x then dedupFirstAux seen xs
      else x :: dedupFirstAux (x :: seen) xs

/-- First-occurrence deduplication; models building a Python `set` from a
list, with the (arbitrary in Python) iteration order fixed to first
occurrence.  No claim depends on set iteration order. -/
def dedupFirst (xs : List String) : List String := dedupFirstAux [] xs

/-- The analyzer's immutable configuration (`TagAnalyzer.__init__` state):
`self.required_tags` and `self.invalid_tag_values`, both Python sets,
modelled as duplicate-free lists. -/
structure TagAnalyzer where
  required_tags : List String
  invalid_tag_values : List String

/-- `TagAnalyzer.__init__`: `set(required_tags) if required_tags else
set()`, and the invalid values normalised by
`str(v).lower() if v is not None else ""`. -/
def mkAnalyzer (required_tags : List String) (invalid_tag_values : List PyVal) : TagAnalyzer :=
  { required_tags := dedupFirst required_tags
    invalid_tag_values := dedupFirst (invalid_tag_values.map fun v =>
      match v with
      | .none => ""
      | v => pyLower (pyStr v)) }

/-- `TagAnalyzer._is_tag_value_valid`. -/
def TagAnalyzer.is_tag_value_valid (a : TagAnalyzer) (tag_value : PyVal) : Bool :=
  if a.invalid_tag_values.isEmpty then true
  else
    let value_str := match tag_value with
      | .none => ""
      | v => pyStr v
    let value_normalized := pyStrip (pyLower value_str)
    !a.invalid_tag_values.contains value_normalized

/-- `TagAnalyzer._calculate_resource_compliance`. -/
def TagAnalyzer.calculate_resource_compliance (a : TagAnalyzer)
    (resource_tag_names : List PyVal) (resource_tags : Option (List (PyVal × PyVal))) : ℚ :=
  if a.required_tags.isEmpty then 100
  else
    let compliant_tags := (a.required_tags.filter fun tag_name =>
      pyMem (.str tag_name) resource_tag_names &&
        (match resource_tags with
         | some tags => a.is_tag_value_valid (dictGetD tags (.str tag_name) .none)
         | Option.none => true)).length
    round1 ((compliant_tags : ℚ) / (a.required_tags.length : ℚ) * 100)

/-- The `required_tags - tag_names if required_tags else []` computation
shared by the resource-group branch (line 77) and the resource branch
(line 134) of `analyze_resource_tags`. -/
def TagAnalyzer.missingTags (a : TagAnalyzer) (tag_names : List PyVal) : List String :=
  if !a.required_tags.isEmpty then
    a.required_tags.filter (fun t => !pyMem (.str t) tag_names)
  else []

/-- The `for tag_name in self.required_tags: if tag_name in tags and not
valid: append {tag_name, str(value)}` loop shared by the resource-group
branch (lines 80-88) and the resource branch (lines 137-145). -/
def TagAnalyzer.invalidValueTags (a : TagAnalyzer) (tags : List (PyVal × PyVal)) :
    List (String × String) :=
  a.required_tags.filterMap fun tag_name =>
    if dictHas tags (.str tag_name) then
      let tag_value := dictGetD tags (.str tag_name) .none
      if !a.is_tag_value_valid tag_value then
        some (tag_name,
          match tag_value with
          | .none => ""
          | v => pyStr v)
      else Option.none
    else Option.none

/-- The `resource_info` record built for every counted resource
(lines 147-156). -/
structure ResourceInfo where
  resource_type : String
  resource_name : PyVal
  resource_id : PyVal
  resource_group : PyVal
  existing_tags : List PyVal
  missing_tags : List String
  invalid_value_tags : List (String × String)
  compliance_rate : ℚ

/-- The `resource_groups_info[rg_name]` record (lines 90-98). -/
structure RGInfo where
  name : PyVal
  tags : List (PyVal × PyVal)
  existing_tags : List PyVal
  missing_tags : List String
  invalid_value_tags : List (String × String)
  compliance_rate : ℚ
  resources : List ResourceInfo

/-- `d[k] = v` on a Python dict: replace in place if a `==`-equal key
exists (keeping the original key object and position), else append. -/
def rgSet (xs : List (PyVal × RGInfo)) (k : PyVal) (v : RGInfo) : List (PyVal × RGInfo) :=
  match xs with
  | [] => [(k, v)]
  | (k', v') :: rest => if pyEq k' k then (k', v) :: rest else (k', v') :: rgSet rest k v

/-- `k in resource_groups_info`. -/
def rgHas (xs : List (PyVal × RGInfo)) (k : PyVal) : Bool :=
  (xs.find? (fun p => pyEq p.1 k)).isSome

/-- `resource_groups_info[name]['resources'].append(ri)` (line 163). -/
def rgAppendResource (xs : List (PyVal × RGInfo)) (k : PyVal) (ri : ResourceInfo) :
    List (PyVal × RGInfo) :=
  xs.map fun p =>
    if pyEq p.1 k then (p.1, { p.2 with resources := p.2.resources ++ [ri] }) else p

/-- `d[k] = d.get(k, 0) + 1` on a counter dict with `PyVal` keys. -/
def bumpCount (xs : List (PyVal × Nat)) (k : PyVal) : List (PyVal × Nat) :=
  match xs with
  | [] => [(k, 1)]
  | (k', n) :: rest => if pyEq k' k then (k', n + 1) :: rest else (k', n) :: bumpCount rest k

/-- `d[k] = d.get(k, 0) + 1` on a counter dict with string keys. -/
def bumpStr (xs : List (String × Nat)) (k : String) : List (String × Nat) :=
  match xs with
  | [] => [(k, 1)]
  | (k', n) :: rest => if k' == k then (k', n + 1) :: rest else (k', n) :: bumpStr rest k

/-- The `tag_values[tag_name][tag_value_str]` increment (lines 127-130). -/
def bumpTagValue (xs : List (PyVal × List (String × Nat))) (k : PyVal) (v : String) :
    List (PyVal × List (String × Nat)) :=
  match xs with
  | [] => [(k, [(v, 1)])]
  | (k', m) :: rest =>
      if pyEq k' k then (k', bumpStr m v) :: rest else (k', m) :: bumpTagValue rest k v

/-- `tag_values.get(tag_name, {})`. -/
def tagValuesGetD (xs : List (PyVal × List (String × Nat))) (k : PyVal) : List (String × Nat) :=
  match xs.find? (fun p => pyEq p.1 k) with
  | some p => p.2
  | Option.none => []

/-- `all_tags.get(tag_name, 0)`. -/
def countGetD (xs : List (PyVal × Nat)) (k : PyVal) : Nat :=
  match xs.find? (fun p => pyEq p.1 k) with
  | some p => p.2
  | Option.none => 0

/-- The mutable accumulators of `analyze_resource_tags` (lines 54-66). -/
structure AState where
  all_tags : List (PyVal × Nat)
  resources_with_tags : Nat
  resources_without_tags : Nat
  total_resources : Nat
  missing_tags_by_resource : List ResourceInfo
  tag_values : List (PyVal × List (String × Nat))
  resource_groups_info : List (PyVal × RGInfo)

/-- The initial accumulator state, before the resource-group pass. -/
def initState (rgInfo : List (PyVal × RGInfo)) : AState :=
  { all_tags := []
    resources_with_tags := 0
    resources_without_tags := 0
    total_resources := 0
    missing_tags_by_resource := []
    tag_values := []
    resource_groups_info := rgInfo }

/-- Python `for x in v`: lists yield elements, strings yield one-character
strings, dicts yield keys; anything else raises `TypeError`. -/
def pyIter : PyVal → Except PyErr (List PyVal)
  | .list xs => .ok xs
  | .str s => .ok (s.toList.map fun c => .str (String.mk [c]))
  | .dict xs => .ok (xs.map (·.1))
  | _ => .error .typeError

/-- `resources.get(k, default)` on the input catalog. -/
def catalogGetD (cat : List (String × PyVal)) (k : String) (d : PyVal) : PyVal :=
  match cat.find? (fun p => p.1 == k) with
  | some p => p.2
  | Option.none => d

/-- `record.get('tags', {}) or {}`, the tags-value extraction shared by
the resource-group branch (line 73) and the resource branch (line 115). -/
def tagsValueOf (m : List (PyVal × PyVal)) : PyVal :=
  let tags0 := dictGetD m (.str "tags") (.dict [])
  if pyTruthy tags0 then tags0 else .dict []

/-- The `RGInfo` record built for a resource-group entry (lines 90-98),
given its extracted tags dict. -/
def TagAnalyzer.mkRGInfo (a : TagAnalyzer) (rg_name : PyVal)
    (rg_tags : List (PyVal × PyVal)) : RGInfo :=
  { name := rg_name
    tags := rg_tags
    existing_tags := rg_tags.map (·.1)
    missing_tags := a.missingTags (rg_tags.map (·.1))
    invalid_value_tags := a.invalidValueTags rg_tags
    compliance_rate := a.calculate_resource_compliance (rg_tags.map (·.1)) (some rg_tags)
    resources := [] }

/-- Processing of one entry of `resources['resource_groups']`
(lines 70-98): non-dict entries are skipped; a truthy non-dict `tags`
raises `AttributeError` at `rg_tags.keys()`; an unhashable `name` raises
`TypeError` at the `resource_groups_info[rg_name]` assignment. -/
def TagAnalyzer.processRG (a : TagAnalyzer) (rg : PyVal) :
    Except PyErr (Option (PyVal × RGInfo)) :=
  match rg with
  | .dict m =>
    let rg_name := dictGetD m (.str "name") (.str "Unknown")
    match tagsValueOf m with
    | .dict rg_tags =>
      if isHashable rg_name then
        .ok (some (rg_name, a.mkRGInfo rg_name rg_tags))
      else .error .typeError
    | _ => .error .attributeError
  | _ => .ok Option.none

/-- The resource-group extraction pass (lines 69-98), folding
`resource_groups_info[rg_name] = ...` assignments left to right. -/
def TagAnalyzer.extractRGs (a : TagAnalyzer) :
    List (PyVal × RGInfo) → List PyVal → Except PyErr (List (PyVal × RGInfo))
  | acc, [] => .ok acc
  | acc, rg :: rest =>
    match a.processRG rg with
    | .ok (some (k, info)) => a.extractRGs (rgSet acc k info) rest
    | .ok Option.none => a.extractRGs acc rest
    | .error e => .error e

/-- The `resource_info` record built for one counted resource
(lines 147-156), given its extracted tags dict. -/
def TagAnalyzer.mkResourceInfo (a : TagAnalyzer) (resource_type : String)
    (res resource_tags : List (PyVal × PyVal)) : ResourceInfo :=
  { resource_type := resource_type
    resource_name := dictGetD res (.str "name") (.str "Unknown")
    resource_id := dictGetD res (.str "id") (.str "N/A")
    resource_group := dictGetD res (.str "resource_group") (.str "N/A")
    existing_tags := resource_tags.map (·.1)
    missing_tags := a.missingTags (resource_tags.map (·.1))
    invalid_value_tags := a.invalidValueTags resource_tags
    compliance_rate := a.calculate_resource_compliance (resource_tags.map (·.1))
      (some resource_tags) }

/-- All accumulator updates performed for one counted resource
(lines 114-163), given its extracted tags dict. -/
def TagAnalyzer.stepState (a : TagAnalyzer) (resource_type : String) (s : AState)
    (res resource_tags : List (PyVal × PyVal)) : AState :=
  let resource_group_name := dictGetD res (.str "resource_group") (.str "N/A")
  let resource_info := a.mkResourceInfo resource_type res resource_tags
  { all_tags := resource_tags.foldl (fun acc p => bumpCount acc p.1) s.all_tags
    resources_with_tags :=
      if pyTruthy (tagsValueOf res) then s.resources_with_tags + 1 else s.resources_with_tags
    resources_without_tags :=
      if pyTruthy (tagsValueOf res) then s.resources_without_tags else s.resources_without_tags + 1
    total_resources := s.total_resources + 1
    missing_tags_by_resource :=
      if !resource_info.missing_tags.isEmpty || !resource_info.invalid_value_tags.isEmpty
      then s.missing_tags_by_resource ++ [resource_info]
      else s.missing_tags_by_resource
    tag_values := resource_tags.foldl (fun acc p =>
      bumpTagValue acc p.1 (if pyTruthy p.2 then pyStr p.2 else "(empty)")) s.tag_values
    resource_groups_info :=
      if rgHas s.resource_groups_info resource_group_name
      then rgAppendResource s.resource_groups_info resource_group_name resource_info
      else s.resource_groups_info }

/-- Processing of one resource record (lines 110-163). -/
def TagAnalyzer.processResource (a : TagAnalyzer) (resource_type : String)
    (s : AState) (resource : PyVal) : Except PyErr AState :=
  match resource with
  | .dict res =>
    match tagsValueOf res with
    | .dict resource_tags =>
      if isHashable (dictGetD res (.str "resource_group") (.str "N/A")) then
        .ok (a.stepState resource_type s res resource_tags)
      else .error .typeError
    | _ => .error .attributeError
  | _ => .ok s

/-- The inner `for resource in resource_list` loop. -/
def TagAnalyzer.processTypeItems (a : TagAnalyzer) (resource_type : String) :
    AState → List PyVal → Except PyErr AState
  | s, [] => .ok s
  | s, r :: rest =>
    match a.processResource resource_type s r with
    | .ok s' => a.processTypeItems resource_type s' rest
    | .error e => .error e

/-- One entry of the `for resource_type, resource_list in resources.items()`
loop (lines 101-108): non-list values and the reserved keys are skipped. -/
def TagAnalyzer.processEntry (a : TagAnalyzer) (s : AState) (e : String × PyVal) :
    Except PyErr AState :=
  match e.2 with
  | .list items =>
      if e.1 = "resource_groups" || e.1 = "all_resources" then .ok s
      else a.processTypeItems e.1 s items
  | _ => .ok s

/-- The outer catalog loop. -/
def TagAnalyzer.analyzeLoop (a : TagAnalyzer) :
    AState → List (String × PyVal) → Except PyErr AState
  | s, [] => .ok s
  | s, e :: rest =>
    match a.processEntry s e with
    | .ok s' => a.analyzeLoop s' rest
    | .error err => .error err

/-- Stable insertion of `x` in front of the first element it is
`le`-below-or-equal to. -/
def insertS (le : α → α → Bool) (x : α) : List α → List α
  | [] => [x]
  | y :: ys => if le x y then x :: y :: ys else y :: insertS le x ys

/-- Python's stable `list.sort(key=...)` / `sorted(...)`, modelled as a
stable insertion sort (for a total preorder, the stable sort is unique, so
this agrees with CPython's stable sort). -/
def pySorted (le : α → α → Bool) : List α → List α
  | [] => []
  | x :: xs => insertS le x (pySorted le xs)

/-- One entry of `resource_groups_details` (lines 260-270). -/
structure RGSummary where
  name : PyVal
  tags : List (PyVal × PyVal)
  existing_tags : List PyVal
  missing_tags : List String
  invalid_value_tags : List (String × String)
  compliance_rate : ℚ
  total_resources : Nat
  non_compliant_resources : Nat
  resources : List ResourceInfo

/-- The non-compliance test on a member resource used at lines 237-241
(`missing_tags` truthy and non-empty, or `invalid_value_tags` truthy and
non-empty). -/
def resourceNonCompliant (res : ResourceInfo) : Bool :=
  !res.missing_tags.isEmpty || !res.invalid_value_tags.isEmpty

/-- The summary record built for one `(rg_name, rg_info)` item
(lines 235-270). -/
def buildRGSummaryEntry (p : PyVal × RGInfo) : RGSummary :=
  let rg_info := p.2
  let non_compliant_count := (rg_info.resources.filter resourceNonCompliant).length
  let rg_own_compliance := rg_info.compliance_rate
  let overall_rg_compliance :=
    if !rg_info.resources.isEmpty then
      (rg_own_compliance +
        (rg_info.resources.map (·.compliance_rate)).sum / (rg_info.resources.length : ℚ)) / 2
    else rg_own_compliance
  { name := p.1
    tags := rg_info.tags
    existing_tags := rg_info.existing_tags
    missing_tags := rg_info.missing_tags
    invalid_value_tags := rg_info.invalid_value_tags
    compliance_rate := round1 overall_rg_compliance
    total_resources := rg_info.resources.length
    non_compliant_resources := non_compliant_count
    resources := rg_info.resources }

/-- `TagAnalyzer._build_resource_groups_summary`: map each group to its
summary record, then `summary.sort(key=lambda x: x['compliance_rate'])`
(Python's stable ascending sort, modelled by `mergeSort`). -/
def build_resource_groups_summary (resource_groups_info : List (PyVal × RGInfo)) :
    List RGSummary :=
  pySorted (fun x y => decide (x.compliance_rate ≤ y.compliance_rate))
    (resource_groups_info.map buildRGSummaryEntry)

/-- `TagAnalyzer._calculate_overall_compliance`. -/
def TagAnalyzer.calculate_overall_compliance (a : TagAnalyzer)
    (missing_tags_by_resource : List ResourceInfo) (total_resources : Nat)
    (resource_groups : List RGSummary) : ℚ :=
  if a.required_tags.isEmpty then 100
  else if total_resources = 0 && resource_groups.isEmpty then 100
  else
    let resPart : ℚ :=
      if total_resources > 0 then
        ((total_resources : ℚ) - (missing_tags_by_resource.length : ℚ)) * 100 +
          ((missing_tags_by_resource.filter (fun r => r.compliance_rate > 0)).map
            (·.compliance_rate)).sum
      else 0
    let resItems : Nat := if total_resources > 0 then total_resources else 0
    let total_compliance := resPart + (resource_groups.map (·.compliance_rate)).sum
    let total_items := resItems + resource_groups.length
    if total_items = 0 then 100
    else round1 (total_compliance / (total_items : ℚ))

/-- A finding (`_generate_findings`); the interpolated `issue` and
`recommendation` strings are presentation-only per the spec and are not
modelled. -/
structure Finding where
  resource : String
  category : String
  severity : String

/-- `TagAnalyzer._generate_findings`. -/
def generate_findings (missing_tags_by_resource : List ResourceInfo)
    (compliance_rate : ℚ) (resources_without_tags total_resources : Nat) : List Finding :=
  let overallFindings : List Finding :=
    if compliance_rate < 50 then [⟨"All Resources", "tagging", "high"⟩]
    else if compliance_rate < 80 then [⟨"All Resources", "tagging", "medium"⟩]
    else if compliance_rate < 100 then [⟨"All Resources", "tagging", "low"⟩]
    else []
  let untaggedFindings : List Finding :=
    if resources_without_tags > 0 then
      let pct : ℚ :=
        if total_resources > 0
        then round1 ((resources_without_tags : ℚ) / (total_resources : ℚ) * 100)
        else 0
      let severity := if pct > 25 then "high" else if pct > 10 then "medium" else "low"
      [⟨"Multiple Resources", "tagging", severity⟩]
    else []
  let tag_gaps : List (String × Nat) :=
    missing_tags_by_resource.foldl
      (fun acc r => r.missing_tags.foldl (fun acc2 t => bumpStr acc2 t) acc) []
  let gapFindings : List Finding :=
    ((pySorted (fun x y => decide (y.2 ≤ x.2)) tag_gaps).take 5).map fun g =>
      let pct : ℚ :=
        if total_resources > 0 then round1 ((g.2 : ℚ) / (total_resources : ℚ) * 100) else 0
      let severity := if pct > 50 then "high" else if pct > 25 then "medium" else "low"
      ⟨"Tag: " ++ g.1, "tagging", severity⟩
  let invalid_value_gaps : List (String × Nat) :=
    missing_tags_by_resource.foldl
      (fun acc r => r.invalid_value_tags.foldl (fun acc2 t => bumpStr acc2 t.1) acc) []
  let invalidFindings : List Finding :=
    ((pySorted (fun x y => decide (y.2 ≤ x.2)) invalid_value_gaps).take 5).map fun g =>
      let pct : ℚ :=
        if total_resources > 0 then round1 ((g.2 : ℚ) / (total_resources : ℚ) * 100) else 0
      let severity := if pct > 50 then "high" else if pct > 25 then "medium" else "low"
      ⟨"Tag: " ++ g.1, "tagging", severity⟩
  overallFindings ++ untaggedFindings ++ gapFindings ++ invalidFindings

/-- One entry of `tag_usage` (lines 176-184). -/
structure TagUsage where
  tag_name : PyVal
  usage_count : Nat
  usage_percentage : ℚ
  is_required : Bool
  unique_values : Nat

/-- One entry of `required_tags_compliance` (lines 186-195). -/
structure RequiredTagCompliance where
  tag_name : String
  compliant_resources : Nat
  non_compliant_resources : Int
  compliance_percentage : ℚ

/-- The `summary` block of the analysis result (lines 198-206). -/
structure ReportSummary where
  total_resources : Nat
  resources_with_tags : Nat
  resources_without_tags : Nat
  unique_tags_found : Nat
  required_tags_count : Nat
  overall_compliance_rate : ℚ
  total_resource_groups : Nat

/-- The `analysis_result` dictionary (lines 197-217). -/
structure Report where
  summary : ReportSummary
  tag_usage : List TagUsage
  required_tags_compliance : List RequiredTagCompliance
  non_compliant_resources : List ResourceInfo
  resource_groups_details : List RGSummary
  findings : List Finding

/-- Assembly of the `analysis_result` from the final accumulator state
(lines 165-217). -/
def TagAnalyzer.buildReport (a : TagAnalyzer) (s : AState) : Report :=
  let resource_groups_by_compliance := build_resource_groups_summary s.resource_groups_info
  let compliance_rate := a.calculate_overall_compliance
    s.missing_tags_by_resource s.total_resources resource_groups_by_compliance
  let tag_summary : List TagUsage :=
    (pySorted (fun x y => decide (y.2 ≤ x.2)) s.all_tags).map fun g =>
      { tag_name := g.1
        usage_count := g.2
        usage_percentage :=
          if s.total_resources > 0
          then round1 ((g.2 : ℚ) / (s.total_resources : ℚ) * 100)
          else 0
        is_required := a.required_tags.any (fun t => pyEq g.1 (.str t))
        unique_values := (tagValuesGetD s.tag_values g.1).length }
  let required_tags_summary : List RequiredTagCompliance :=
    a.required_tags.map fun tag_name =>
      let count := countGetD s.all_tags (.str tag_name)
      { tag_name := tag_name
        compliant_resources := count
        non_compliant_resources := (s.total_resources : Int) - (count : Int)
        compliance_percentage :=
          if s.total_resources > 0
          then round1 ((count : ℚ) / (s.total_resources : ℚ) * 100)
          else 0 }
  { summary :=
      { total_resources := s.total_resources
        resources_with_tags := s.resources_with_tags
        resources_without_tags := s.resources_without_tags
        unique_tags_found := s.all_tags.length
        required_tags_count := a.required_tags.length
        overall_compliance_rate := compliance_rate
        total_resource_groups := s.resource_groups_info.length }
    tag_usage := tag_summary
    required_tags_compliance := required_tags_summary
    non_compliant_resources := s.missing_tags_by_resource
    resource_groups_details := resource_groups_by_compliance
    findings := generate_findings s.missing_tags_by_resource compliance_rate
      s.resources_without_tags s.total_resources }

/-- `TagAnalyzer.analyze_resource_tags`, the public entry point.  The input
catalog is the Python dict `resources`, modelled as an insertion-ordered
association list (genuine Python dicts have unique keys). -/
def TagAnalyzer.analyze_resource_tags (a : TagAnalyzer) (resources : List (String × PyVal)) :
    Except PyErr Report :=
  match pyIter (catalogGetD resources "resource_groups" (.list [])) with
  | .error e => .error e
  | .ok rgItems =>
    match a.extractRGs [] rgItems with
    | .error e => .error e
    | .ok rgInfo0 =>
      match a.analyzeLoop (initState rgInfo0) resources with
      | .error e => .error e
      | .ok s => .ok (a.buildReport s)

theorem roundHalfEven_intCast (m : ℤ) : roundHalfEven (m : ℚ) = m := by
  unfold roundHalfEven
  simp [Int.floor_intCast]

theorem roundHalfEven_floor_or (q : ℚ) :
    roundHalfEven q = ⌊q⌋ ∨ roundHalfEven q = ⌊q⌋ + 1 := by
  unfold roundHalfEven
  dsimp only
  split_ifs <;> simp

theorem round1_idem (q : ℚ) : round1 (round1 q) = round1 q := by
  unfold round1
  have h : ((roundHalfEven (q * 10) : ℚ) / 10) * 10 = ((roundHalfEven (q * 10) : ℤ) : ℚ) := by
    ring
  rw [h, roundHalfEven_intCast]

theorem round1_nonneg (q : ℚ) (h : 0 ≤ q) : 0 ≤ round1 q := by
  unfold round1
  have h10 : (0 : ℚ) ≤ q * 10 := by positivity
  have hf : (0 : ℤ) ≤ ⌊q * 10⌋ := Int.floor_nonneg.mpr h10
  rcases roundHalfEven_floor_or (q * 10) with he | he <;> rw [he] <;>
    (apply div_nonneg _ (by norm_num)) <;> exact_mod_cast (by omega : (0:ℤ) ≤ _)

theorem round1_100 : round1 100 = 100 := by
  have h : (100 : ℚ) * 10 = ((1000 : ℤ) : ℚ) := by norm_num
  rw [round1, h, roundHalfEven_intCast]
  norm_num

theorem pyEq_str_comm (x : PyVal) (s : String) : pyEq x (.str s) = pyEq (.str s) x := by
  cases x <;> try rfl
  case str t =>
    refine Bool.eq_iff_iff.mpr ?_
    simp only [pyEq, beq_iff_eq]
    exact eq_comm

theorem pyMem_keys_iff_dictHas (tags : List (PyVal × PyVal)) (s : String) :
    pyMem (.str s) (tags.map (·.1)) = dictHas tags (.str s) := by
  induction tags with
  | nil => rfl
  | cons p rest ih =>
      simp only [pyMem, dictHas, List.map_cons, List.any_cons, List.find?]
      rw [pyEq_str_comm p.1 s]
      cases h : pyEq (.str s) p.1 <;> simp [h] <;> simpa [pyMem, dictHas] using ih

theorem insertS_perm (le : α → α → Bool) (x : α) (l : List α) :
    (insertS le x l).Perm (x :: l) := by
  induction l with
  | nil => exact List.Perm.refl _
  | cons y ys ih =>
      unfold insertS
      by_cases h : le x y = true
      · rw [if_pos h]
      · rw [if_neg h]
        exact (ih.cons y).trans (List.Perm.swap x y ys)

theorem pySorted_perm (le : α → α → Bool) (l : List α) : (pySorted le l).Perm l := by
  induction l with
  | nil => exact List.Perm.refl _
  | cons x xs ih =>
      unfold pySorted
      exact (insertS_perm le x (pySorted le xs)).trans (ih.cons x)

theorem calculate_resource_compliance_nonneg (a : TagAnalyzer)
    (names : List PyVal) (tags : Option (List (PyVal × PyVal))) :
    0 ≤ a.calculate_resource_compliance names tags := by
  unfold TagAnalyzer.calculate_resource_compliance
  split
  · norm_num
  · exact round1_nonneg _ (by positivity)

/-- A resource with no missing required tags and no invalid-valued required
tags is exactly 100% compliant. -/
theorem calc_of_no_missing_invalid (a : TagAnalyzer) (tags : List (PyVal × PyVal))
    (hm : a.missingTags (tags.map (·.1)) = [])
    (hi : a.invalidValueTags tags = []) :
    a.calculate_resource_compliance (tags.map (·.1)) (some tags) = 100 := by
  unfold TagAnalyzer.calculate_resource_compliance
  by_cases hreq : a.required_tags.isEmpty
  · simp [hreq]
  · rw [if_neg hreq]
    have hmem : ∀ t ∈ a.required_tags, pyMem (.str t) (tags.map (·.1)) = true := by
      intro t ht
      unfold TagAnalyzer.missingTags at hm
      rw [if_pos (by simp [hreq])] at hm
      have := List.filter_eq_nil.mp hm t ht
      simpa using this
    have hvalid : ∀ t ∈ a.required_tags,
        a.is_tag_value_valid (dictGetD tags (.str t) .none) = true := by
      intro t ht
      have hf := List.filterMap_eq_nil.mp hi t ht
      have hhas : dictHas tags (.str t) = true := by
        rw [← pyMem_keys_iff_dictHas]; exact hmem t ht
      rw [if_pos hhas] at hf
      by_contra hv
      simp [Bool.not_eq_true] at hv
      rw [if_pos (by simp [hv])] at hf
      exact absurd hf (by simp)
    have hfilter : (a.required_tags.filter fun tag_name =>
        pyMem (.str tag_name) (tags.map (·.1)) &&
          (match some tags with
           | some tags => a.is_tag_value_valid (dictGetD tags (.str tag_name) .none)
           | Option.none => true)) = a.required_tags := by
      apply List.filter_eq_self.mpr
      intro t ht
      simp only
      rw [hmem t ht, hvalid t ht]
      rfl
    rw [hfilter]
    have hne : (a.required_tags.length : ℚ) ≠ 0 := by
      have h0 : a.required_tags ≠ [] := by
        intro h0; rw [h0] at hreq; simp at hreq
      exact Nat.cast_ne_zero.mpr (Nat.pos_iff_ne_zero.mp (List.length_pos.mpr h0))
    dsimp only
    rw [div_self hne, one_mul, round1_100]

theorem round1_calc (a : TagAnalyzer) (names : List PyVal)
    (tags : Option (List (PyVal × PyVal))) :
    round1 (a.calculate_resource_compliance names tags) =
      a.calculate_resource_compliance names tags := by
  unfold TagAnalyzer.calculate_resource_compliance
  split
  · exact round1_100
  · exact round1_idem _

theorem processResource_ok_cases (a : TagAnalyzer) (t : String) (s : AState) (res : PyVal)
    (s' : AState) (h : a.processResource t s res = .ok s') :
    ((∀ m, res ≠ .dict m) ∧ s' = s) ∨
    (∃ m resource_tags, res = .dict m ∧ tagsValueOf m = .dict resource_tags ∧
      isHashable (dictGetD m (.str "resource_group") (.str "N/A")) = true ∧
      s' = a.stepState t s m resource_tags) := by
  cases res with
  | dict m =>
      right
      unfold TagAnalyzer.processResource at h
      dsimp only at h
      refine ⟨m, ?_⟩
      cases htv : tagsValueOf m with
      | dict resource_tags =>
          rw [htv] at h
          dsimp only at h
          by_cases hh : isHashable (dictGetD m (.str "resource_group") (.str "N/A")) = true
          · rw [if_pos hh] at h
            cases h
            exact ⟨resource_tags, rfl, rfl, hh, rfl⟩
          · rw [if_neg hh] at h
            cases h
      | none => rw [htv] at h; dsimp only at h; cases h
      | bool b => rw [htv] at h; dsimp only at h; cases h
      | int n => rw [htv] at h; dsimp only at h; cases h
      | str v => rw [htv] at h; dsimp only at h; cases h
      | list xs => rw [htv] at h; dsimp only at h; cases h
  | none =>
      left
      unfold TagAnalyzer.processResource at h
      cases h
      exact ⟨fun m hc => PyVal.noConfusion hc, rfl⟩
  | bool b =>
      left
      unfold TagAnalyzer.processResource at h
      cases h
      exact ⟨fun m hc => PyVal.noConfusion hc, rfl⟩
  | int n =>
      left
      unfold TagAnalyzer.processResource at h
      cases h
      exact ⟨fun m hc => PyVal.noConfusion hc, rfl⟩
  | str v =>
      left
      unfold TagAnalyzer.processResource at h
      cases h
      exact ⟨fun m hc => PyVal.noConfusion hc, rfl⟩
  | list xs =>
      left
      unfold TagAnalyzer.processResource at h
      cases h
      exact ⟨fun m hc => PyVal.noConfusion hc, rfl⟩

theorem processRG_ok_some (a : TagAnalyzer) (rg : PyVal) (k : PyVal) (info : RGInfo)
    (h : a.processRG rg = .ok (some (k, info))) :
    ∃ m rg_tags, rg = .dict m ∧ tagsValueOf m = .dict rg_tags ∧
      k = dictGetD m (.str "name") (.str "Unknown") ∧ info = a.mkRGInfo k rg_tags := by
  cases rg with
  | dict m =>
      unfold TagAnalyzer.processRG at h
      dsimp only at h
      refine ⟨m, ?_⟩
      cases htv : tagsValueOf m with
      | dict rg_tags =>
          rw [htv] at h
          dsimp only at h
          by_cases hh : isHashable (dictGetD m (.str "name") (.str "Unknown")) = true
          · rw [if_pos hh] at h
            cases h
            exact ⟨rg_tags, rfl, rfl, rfl, rfl⟩
          · rw [if_neg hh] at h
            cases h
      | none => rw [htv] at h; dsimp only at h; cases h
      | bool b => rw [htv] at h; dsimp only at h; cases h
      | int n => rw [htv] at h; dsimp only at h; cases h
      | str v => rw [htv] at h; dsimp only at h; cases h
      | list xs => rw [htv] at h; dsimp only at h; cases h
  | none => unfold TagAnalyzer.processRG at h; cases h
  | bool b => unfold TagAnalyzer.processRG at h; cases h
  | int n => unfold TagAnalyzer.processRG at h; cases h
  | str v => unfold TagAnalyzer.processRG at h; cases h
  | list xs => unfold TagAnalyzer.processRG at h; cases h

/-- Generic preservation of a state predicate along the per-type resource
loop. -/
theorem processTypeItems_inv (a : TagAnalyzer) {P : AState → Prop}
    (hP : ∀ t s m resource_tags, tagsValueOf m = .dict resource_tags →
      P s → P (a.stepState t s m resource_tags)) :
    ∀ (t : String) (items : List PyVal) (s s' : AState),
      P s → a.processTypeItems t s items = .ok s' → P s' := by
  intro t items
  induction items with
  | nil =>
      intro s s' hs h
      unfold TagAnalyzer.processTypeItems at h
      cases h
      exact hs
  | cons r rest ih =>
      intro s s' hs h
      unfold TagAnalyzer.processTypeItems at h
      cases hr : a.processResource t s r with
      | ok s1 =>
          rw [hr] at h
          rcases processResource_ok_cases a t s r s1 hr with ⟨_, rfl⟩ | ⟨m, rt, _, htv, _, rfl⟩
          · exact ih _ s' hs h
          · exact ih _ s' (hP t s m rt htv hs) h
      | error e => rw [hr] at h; cases h

/-- Generic preservation of a state predicate along the catalog loop. -/
theorem analyzeLoop_inv (a : TagAnalyzer) {P : AState → Prop}
    (hP : ∀ t s m resource_tags, tagsValueOf m = .dict resource_tags →
      P s → P (a.stepState t s m resource_tags)) :
    ∀ (es : List (String × PyVal)) (s s' : AState),
      P s → a.analyzeLoop s es = .ok s' → P s' := by
  intro es
  induction es with
  | nil =>
      intro s s' hs h
      unfold TagAnalyzer.analyzeLoop at h
      cases h
      exact hs
  | cons e rest ih =>
      intro s s' hs h
      unfold TagAnalyzer.analyzeLoop at h
      cases he : a.processEntry s e with
      | ok s1 =>
          rw [he] at h
          refine ih s1 s' ?_ h
          unfold TagAnalyzer.processEntry at he
          cases hv : e.2 with
          | list items =>
              rw [hv] at he
              dsimp only at he
              by_cases hk : (e.1 = "resource_groups" || e.1 = "all_resources") = true
              · rw [if_pos hk] at he; cases he; exact hs
              · rw [if_neg hk] at he
                exact processTypeItems_inv a hP e.1 items s s1 hs he
          | none => rw [hv] at he; dsimp only at he; cases he; exact hs
          | bool b => rw [hv] at he; dsimp only at he; cases he; exact hs
          | int n => rw [hv] at he; dsimp only at he; cases he; exact hs
          | str v => rw [hv] at he; dsimp only at he; cases he; exact hs
          | dict m => rw [hv] at he; dsimp only at he; cases he; exact hs
      | error err => rw [he] at h; cases h

theorem mem_rgSet (xs : List (PyVal × RGInfo)) (k : PyVal) (v : RGInfo) :
    ∀ p ∈ rgSet xs k v, p.2 = v ∨ p ∈ xs := by
  induction xs with
  | nil =>
      intro p hp
      simp [rgSet] at hp
      left; rw [hp]
  | cons q rest ih =>
      intro p hp
      unfold rgSet at hp
      by_cases hq : pyEq q.1 k = true
      · rw [if_pos hq] at hp
        rcases List.mem_cons.mp hp with h | h
        · left; rw [h]
        · right; exact List.mem_cons_of_mem _ h
      · rw [if_neg hq] at hp
        rcases List.mem_cons.mp hp with h | h
        · right; rw [h]; exact List.mem_cons_self _ _
        · rcases ih p h with h' | h'
          · left; exact h'
          · right; exact List.mem_cons_of_mem _ h'

/-- Every record in the extracted resource-group table comes from
`mkRGInfo`. -/
theorem extractRGs_forall (a : TagAnalyzer) {Q : RGInfo → Prop}
    (hQ : ∀ name rg_tags, Q (a.mkRGInfo name rg_tags)) :
    ∀ (items : List PyVal) (acc out : List (PyVal × RGInfo)),
      (∀ p ∈ acc, Q p.2) → a.extractRGs acc items = .ok out → ∀ p ∈ out, Q p.2 := by
  intro items
  induction items with
  | nil =>
      intro acc out hacc h
      unfold TagAnalyzer.extractRGs at h
      cases h
      exact hacc
  | cons rg rest ih =>
      intro acc out hacc h
      unfold TagAnalyzer.extractRGs at h
      cases hr : a.processRG rg with
      | ok o =>
          rw [hr] at h
          cases o with
          | some ki =>
              refine ih _ out ?_ h
              intro p hp
              rcases mem_rgSet acc ki.1 ki.2 p hp with h' | h'
              · rcases processRG_ok_some a rg ki.1 ki.2 (by rw [hr]) with
                  ⟨m, rg_tags, _, _, _, hinfo⟩
                rw [h', hinfo]
                exact hQ _ _
              · exact hacc p h'
          | none => exact ih acc out hacc h
      | error e => rw [hr] at h; cases h

theorem mem_rgAppendResource (xs : List (PyVal × RGInfo)) (k : PyVal) (ri : ResourceInfo) :
    ∀ p ∈ rgAppendResource xs k ri,
      ∃ q ∈ xs, p.2 = q.2 ∨ p.2 = { q.2 with resources := q.2.resources ++ [ri] } := by
  intro p hp
  unfold rgAppendResource at hp
  rcases List.mem_map.mp hp with ⟨q, hq, he⟩
  by_cases hk : pyEq q.1 k = true
  · rw [if_pos hk] at he
    exact ⟨q, hq, Or.inr (by rw [← he])⟩
  · rw [if_neg hk] at he
    exact ⟨q, hq, Or.inl (by rw [← he])⟩

theorem analyze_ok_elim (a : TagAnalyzer) (resources : List (String × PyVal)) (r : Report)
    (h : a.analyze_resource_tags resources = .ok r) :
    ∃ rgItems rgInfo0 s,
      pyIter (catalogGetD resources "resource_groups" (.list [])) = .ok rgItems ∧
      a.extractRGs [] rgItems = .ok rgInfo0 ∧
      a.analyzeLoop (initState rgInfo0) resources = .ok s ∧
      r = a.buildReport s := by
  unfold TagAnalyzer.analyze_resource_tags at h
  cases h1 : pyIter (catalogGetD resources "resource_groups" (.list [])) with
  | ok rgItems =>
      rw [h1] at h
      dsimp only at h
      cases h2 : a.extractRGs [] rgItems with
      | ok rgInfo0 =>
          rw [h2] at h
          dsimp only at h
          cases h3 : a.analyzeLoop (initState rgInfo0) resources with
          | ok s =>
              rw [h3] at h
              dsimp only at h
              cases h
              exact ⟨rgItems, rgInfo0, s, rfl, h2, h3, rfl⟩
          | error e => rw [h3] at h; dsimp only at h; cases h
      | error e => rw [h2] at h; dsimp only at h; cases h
  | error e => rw [h1] at h; dsimp only at h; cases h

/-- A throwaway report used only to project out of `Except` at concrete
witness inputs. -/
def defaultReport : Report :=
  { summary :=
      { total_resources := 0, resources_with_tags := 0, resources_without_tags := 0
        unique_tags_found := 0, required_tags_count := 0, overall_compliance_rate := 0
        total_resource_groups := 0 }
    tag_usage := [], required_tags_compliance := [], non_compliant_resources := []
    resource_groups_details := [], findings := [] }

def reportOfExcept (x : Except PyErr Report) : Report :=
  match x with
  | .ok r => r
  | .error _ => defaultReport

/-- C6: with an empty required-tag list the reported overall compliance is
100.0 and the non-compliant-resources list is empty, for every catalog the
analyzer accepts. -/
theorem C6_empty_policy (a : TagAnalyzer) (cat : List (String × PyVal)) (r : Report)
    (hreq : a.required_tags = []) (h : a.analyze_resource_tags cat = .ok r) :
    r.summary.overall_compliance_rate = 100 ∧ r.non_compliant_resources = [] := by
  rcases analyze_ok_elim a cat r h with ⟨rgItems, rgInfo0, s, _, _, h3, rfl⟩
  have hmiss : s.missing_tags_by_resource = [] := by
    refine analyzeLoop_inv a (P := fun st => st.missing_tags_by_resource = []) ?_ cat _ s rfl h3
    intro t st m rt _ hst
    simp [TagAnalyzer.stepState, TagAnalyzer.mkResourceInfo, TagAnalyzer.missingTags,
      TagAnalyzer.invalidValueTags, hreq, hst]
  constructor
  · simp [TagAnalyzer.buildReport, TagAnalyzer.calculate_overall_compliance, hreq]
  · simp [TagAnalyzer.buildReport, hmiss]

def catC6w : List (String × PyVal) :=
  [("resource_groups", .list [.dict [(.str "name", .str "rg1"), (.str "tags", .dict [])]]),
   ("virtual_machines", .list [.dict [(.str "name", .str "vm1"),
      (.str "resource_group", .str "rg1"), (.str "tags", .dict [])]])]

theorem C6_empty_policy_witness :
    (mkAnalyzer [] []).required_tags = [] ∧
    (reportOfExcept ((mkAnalyzer [] []).analyze_resource_tags catC6w)).summary.overall_compliance_rate
        = 100 ∧
    (reportOfExcept ((mkAnalyzer [] []).analyze_resource_tags catC6w)).non_compliant_resources
        = [] :=
  ⟨rfl,
   C6_empty_policy (mkAnalyzer [] []) catC6w
     (reportOfExcept ((mkAnalyzer [] []).analyze_resource_tags catC6w)) rfl rfl⟩

theorem invalidValueTags_mem (a : TagAnalyzer) (tags : List (PyVal × PyVal))
    (p : String × String) (hp : p ∈ a.invalidValueTags tags) :
    dictHas tags (.str p.1) = true := by
  rcases List.mem_filterMap.mp hp with ⟨t', ht', hf⟩
  by_cases hhas : dictHas tags (.str t') = true
  · rw [if_pos hhas] at hf
    by_cases hv : (!a.is_tag_value_valid (dictGetD tags (.str t') .none)) = true
    · rw [if_pos hv] at hf
      cases hf
      exact hhas
    · rw [if_neg hv] at hf
      cases hf
  · rw [if_neg hhas] at hf
    cases hf

theorem missingTags_not_has (a : TagAnalyzer) (tags : List (PyVal × PyVal))
    (t : String) (ht : t ∈ a.missingTags (tags.map (·.1))) :
    dictHas tags (.str t) = false := by
  unfold TagAnalyzer.missingTags at ht
  by_cases hreq : a.required_tags.isEmpty
  · simp [hreq] at ht
  · rw [if_pos (by simp [hreq])] at ht
    have hmem := (List.mem_filter.mp ht).2
    rw [← pyMem_keys_iff_dictHas]
    simpa using hmem

/-- The construction-level disjointness fact shared by the resource branch
and the resource-group branch. -/
theorem missing_invalid_disjoint (a : TagAnalyzer) (tags : List (PyVal × PyVal)) :
    ∀ t ∈ a.missingTags (tags.map (·.1)), ∀ p ∈ a.invalidValueTags tags, p.1 ≠ t := by
  intro t ht p hp he
  have h1 := invalidValueTags_mem a tags p hp
  have h2 := missingTags_not_has a tags t ht
  rw [he] at h1
  rw [h1] at h2
  cases h2

/-- The disjointness property as it appears on an emitted record. -/
def disjMI (missing : List String) (invalid : List (String × String)) : Prop :=
  ∀ t ∈ missing, ∀ p ∈ invalid, p.1 ≠ t

theorem mkResourceInfo_disj (a : TagAnalyzer) (t : String) (res rt : List (PyVal × PyVal)) :
    disjMI (a.mkResourceInfo t res rt).missing_tags (a.mkResourceInfo t res rt).invalid_value_tags :=
  missing_invalid_disjoint a rt

theorem mkRGInfo_disj (a : TagAnalyzer) (name : PyVal) (rt : List (PyVal × PyVal)) :
    disjMI (a.mkRGInfo name rt).missing_tags (a.mkRGInfo name rt).invalid_value_tags :=
  missing_invalid_disjoint a rt

/-- C7: in every report, for every non-compliant resource, every
resource-group entry and every member resource, `missing_tags` and the tag
names in `invalid_value_tags` are disjoint. -/
theorem C7_missing_invalid_disjoint (a : TagAnalyzer) (cat : List (String × PyVal)) (r : Report)
    (h : a.analyze_resource_tags cat = .ok r) :
    (∀ ri ∈ r.non_compliant_resources, disjMI ri.missing_tags ri.invalid_value_tags) ∧
    (∀ e ∈ r.resource_groups_details,
      disjMI e.missing_tags e.invalid_value_tags ∧
      ∀ ri ∈ e.resources, disjMI ri.missing_tags ri.invalid_value_tags) := by
  rcases analyze_ok_elim a cat r h with ⟨rgItems, rgInfo0, s, _, h2, h3, rfl⟩
  have hinv :
      (∀ ri ∈ s.missing_tags_by_resource, disjMI ri.missing_tags ri.invalid_value_tags) ∧
      (∀ p ∈ s.resource_groups_info,
        disjMI p.2.missing_tags p.2.invalid_value_tags ∧
        ∀ ri ∈ p.2.resources, disjMI ri.missing_tags ri.invalid_value_tags) := by
    refine analyzeLoop_inv a
      (P := fun st =>
        (∀ ri ∈ st.missing_tags_by_resource, disjMI ri.missing_tags ri.invalid_value_tags) ∧
        (∀ p ∈ st.resource_groups_info,
          disjMI p.2.missing_tags p.2.invalid_value_tags ∧
          ∀ ri ∈ p.2.resources, disjMI ri.missing_tags ri.invalid_value_tags)) ?_ cat _ s ?_ h3
    · intro t st m rt _ hst
      constructor
      · intro ri hri
        unfold TagAnalyzer.stepState at hri
        dsimp only at hri
        by_cases hc : (!(a.mkResourceInfo t m rt).missing_tags.isEmpty ||
            !(a.mkResourceInfo t m rt).invalid_value_tags.isEmpty) = true
        · rw [if_pos hc] at hri
          rcases List.mem_append.mp hri with h' | h'
          · exact hst.1 ri h'
          · rw [List.mem_singleton.mp h']
            exact mkResourceInfo_disj a t m rt
        · rw [if_neg hc] at hri
          exact hst.1 ri hri
      · intro p hp
        unfold TagAnalyzer.stepState at hp
        dsimp only at hp
        by_cases hr : rgHas st.resource_groups_info
            (dictGetD m (.str "resource_group") (.str "N/A")) = true
        · rw [if_pos hr] at hp
          rcases mem_rgAppendResource _ _ _ p hp with ⟨q, hq, hcase⟩
          rcases hcase with h' | h'
          · rw [h']; exact hst.2 q hq
          · rw [h']
            refine ⟨(hst.2 q hq).1, ?_⟩
            intro ri hri
            rcases List.mem_append.mp hri with h'' | h''
            · exact (hst.2 q hq).2 ri h''
            · rw [List.mem_singleton.mp h'']
              exact mkResourceInfo_disj a t m rt
        · rw [if_neg hr] at hp
          exact hst.2 p hp
    · refine ⟨fun ri hri => absurd hri (by simp [initState]), ?_⟩
      intro p hp
      have hq : ∀ q ∈ rgInfo0,
          disjMI q.2.missing_tags q.2.invalid_value_tags ∧ q.2.resources = [] := by
        refine extractRGs_forall a
          (Q := fun info => disjMI info.missing_tags info.invalid_value_tags ∧
            info.resources = []) ?_ rgItems [] rgInfo0 (by simp) h2
        intro name rg_tags
        exact ⟨mkRGInfo_disj a name rg_tags, rfl⟩
      refine ⟨(hq p hp).1, ?_⟩
      rw [(hq p hp).2]
      simp
  constructor
  · exact hinv.1
  · intro e he
    have hmem : ∃ p ∈ s.resource_groups_info, e = buildRGSummaryEntry p := by
      unfold TagAnalyzer.buildReport at he
      dsimp only at he
      unfold build_resource_groups_summary at he
      have hperm := pySorted_perm (fun x y : RGSummary => decide (x.compliance_rate ≤ y.compliance_rate))
        (s.resource_groups_info.map buildRGSummaryEntry)
      rcases List.mem_map.mp (hperm.mem_iff.mp he) with ⟨p, hp, he2⟩
      exact ⟨p, hp, he2.symm⟩
    rcases hmem with ⟨p, hp, rfl⟩
    exact ⟨(hinv.2 p hp).1, (hinv.2 p hp).2⟩

/-- Evaluation helper: `round1 q` for a `q` that is an exact multiple of
one tenth. -/
theorem round1_eval (q : ℚ) (m : ℤ) (h : q * 10 = (m : ℚ)) : round1 q = (m : ℚ) / 10 := by
  rw [round1, h, roundHalfEven_intCast]

def aC7w : TagAnalyzer := mkAnalyzer ["Environment", "Owner"] [.str "none"]

def catC7w : List (String × PyVal) :=
  [("virtual_machines", .list [.dict [(.str "name", .str "vm1"),
      (.str "tags", .dict [(.str "Environment", .str "none")])]])]

def rptC7w : Report := reportOfExcept (aC7w.analyze_resource_tags catC7w)

def dfltRI : ResourceInfo := ⟨"", .none, .none, .none, [], [], [], 0⟩

def riC7w : ResourceInfo := rptC7w.non_compliant_resources.getD 0 dfltRI

theorem C7_missing_invalid_disjoint_witness :
    riC7w ∈ rptC7w.non_compliant_resources ∧
    "Owner" ∈ riC7w.missing_tags ∧
    ("Environment", "none") ∈ riC7w.invalid_value_tags ∧
    (("Environment", "none") : String × String).1 ≠ "Owner" := by
  have hm : riC7w ∈ rptC7w.non_compliant_resources := by
    have h1 : rptC7w.non_compliant_resources = [riC7w] := rfl
    rw [h1]
    exact List.mem_singleton.mpr rfl
  have h2 : "Owner" ∈ riC7w.missing_tags := by
    have h1 : riC7w.missing_tags = ["Owner"] := rfl
    rw [h1]
    exact List.mem_singleton.mpr rfl
  have h3 : ("Environment", "none") ∈ riC7w.invalid_value_tags := by
    have h1 : riC7w.invalid_value_tags = [("Environment", "none")] := rfl
    rw [h1]
    exact List.mem_singleton.mpr rfl
  exact ⟨hm, h2, h3,
    (C7_missing_invalid_disjoint aC7w catC7w rptC7w rfl).1 riC7w hm "Owner" h2
      ("Environment", "none") h3⟩

/-- C2: every resource-group entry of the report carries the aggregate
compliance `C_g` when it has no member resources and
`round1((C_g + mean(member rates)) / 2)` otherwise, where `C_g` is the
group's own-tag compliance (recomputable from its tags). -/
theorem C2_group_aggregate (a : TagAnalyzer) (cat : List (String × PyVal)) (r : Report)
    (h : a.analyze_resource_tags cat = .ok r) :
    ∀ e ∈ r.resource_groups_details,
      (e.resources = [] →
        e.compliance_rate = a.calculate_resource_compliance (e.tags.map (·.1)) (some e.tags)) ∧
      (e.resources ≠ [] →
        e.compliance_rate = round1
          ((a.calculate_resource_compliance (e.tags.map (·.1)) (some e.tags) +
            (e.resources.map (·.compliance_rate)).sum / (e.resources.length : ℚ)) / 2)) := by
  rcases analyze_ok_elim a cat r h with ⟨rgItems, rgInfo0, s, _, h2, h3, rfl⟩
  have hinv : ∀ p ∈ s.resource_groups_info,
      p.2.compliance_rate =
        a.calculate_resource_compliance (p.2.tags.map (·.1)) (some p.2.tags) := by
    refine analyzeLoop_inv a (P := fun st => ∀ p ∈ st.resource_groups_info,
        p.2.compliance_rate =
          a.calculate_resource_compliance (p.2.tags.map (·.1)) (some p.2.tags)) ?_ cat _ s ?_ h3
    · intro t st m rt _ hst p hp
      unfold TagAnalyzer.stepState at hp
      dsimp only at hp
      by_cases hr : rgHas st.resource_groups_info
          (dictGetD m (.str "resource_group") (.str "N/A")) = true
      · rw [if_pos hr] at hp
        rcases mem_rgAppendResource _ _ _ p hp with ⟨q, hq, h' | h'⟩ <;> rw [h'] <;>
          exact hst q hq
      · rw [if_neg hr] at hp
        exact hst p hp
    · exact extractRGs_forall a (Q := fun info =>
        info.compliance_rate =
          a.calculate_resource_compliance (info.tags.map (·.1)) (some info.tags))
        (fun name rg_tags => rfl) rgItems [] rgInfo0 (by simp) h2
  intro e he
  have hmem : ∃ p ∈ s.resource_groups_info, e = buildRGSummaryEntry p := by
    unfold TagAnalyzer.buildReport at he
    dsimp only at he
    unfold build_resource_groups_summary at he
    have hperm := pySorted_perm (fun x y : RGSummary => decide (x.compliance_rate ≤ y.compliance_rate))
      (s.resource_groups_info.map buildRGSummaryEntry)
    rcases List.mem_map.mp (hperm.mem_iff.mp he) with ⟨p, hp, he2⟩
    exact ⟨p, hp, he2.symm⟩
  rcases hmem with ⟨p, hp, rfl⟩
  unfold buildRGSummaryEntry
  dsimp only
  constructor
  · intro hres
    rw [hres]
    simp only [List.isEmpty_nil, Bool.not_true, if_neg (by simp : ¬(false = true))]
    rw [hinv p hp]
    exact round1_calc a _ _
  · intro hres
    have hne : p.2.resources.isEmpty = false := by
      cases hq : p.2.resources with
      | nil => exact absurd hq hres
      | cons x xs => rfl
    rw [if_pos (by simp [hne]), hinv p hp]

def aC2w : TagAnalyzer := mkAnalyzer ["Environment"] []

def catC2w : List (String × PyVal) :=
  [("resource_groups", .list [.dict [(.str "name", .str "rg1"),
      (.str "tags", .dict [(.str "Environment", .str "prod")])]]),
   ("virtual_machines", .list [.dict [(.str "name", .str "vm1"),
      (.str "resource_group", .str "rg1"), (.str "tags", .dict [])]])]

def rptC2w : Report := reportOfExcept (aC2w.analyze_resource_tags catC2w)

def dfltRGS : RGSummary := ⟨.none, [], [], [], [], 0, 0, 0, []⟩

def eC2w : RGSummary := rptC2w.resource_groups_details.getD 0 dfltRGS

theorem C2_group_aggregate_witness :
    eC2w ∈ rptC2w.resource_groups_details ∧ eC2w.resources ≠ [] ∧
    eC2w.compliance_rate = 50 := by
  have hmem : eC2w ∈ rptC2w.resource_groups_details := by
    have h1 : rptC2w.resource_groups_details = [eC2w] := rfl
    rw [h1]
    exact List.mem_singleton.mpr rfl
  have hlen : eC2w.resources.length = 1 := rfl
  have hne : eC2w.resources ≠ [] := by
    intro hc
    rw [hc] at hlen
    cases hlen
  have happ := (C2_group_aggregate aC2w catC2w rptC2w rfl eC2w hmem).2 hne
  have hown : aC2w.calculate_resource_compliance (eC2w.tags.map (·.1)) (some eC2w.tags)
      = 100 :=
    calc_of_no_missing_invalid aC2w eC2w.tags rfl rfl
  have hfl : (aC2w.required_tags.filter fun tag_name =>
      pyMem (.str tag_name) ([] : List PyVal) &&
        (match some ([] : List (PyVal × PyVal)) with
         | some tags => aC2w.is_tag_value_valid (dictGetD tags (.str tag_name) .none)
         | Option.none => true)).length = 0 := rfl
  have hr0 : aC2w.calculate_resource_compliance ([] : List PyVal)
      (some ([] : List (PyVal × PyVal))) = 0 := by
    unfold TagAnalyzer.calculate_resource_compliance
    rw [if_neg (by decide : ¬(aC2w.required_tags.isEmpty = true))]
    dsimp only
    rw [hfl]
    have h10 : ((0 : ℕ) : ℚ) / ((aC2w.required_tags.length : ℕ) : ℚ) * 100 * 10
        = ((0 : ℤ) : ℚ) := by
      norm_num
    rw [round1_eval _ 0 h10]
    norm_num
  have hsum : (eC2w.resources.map (·.compliance_rate)).sum = 0 := by
    have h1 : eC2w.resources.map (·.compliance_rate)
        = [aC2w.calculate_resource_compliance ([] : List PyVal)
            (some ([] : List (PyVal × PyVal)))] := rfl
    rw [h1, hr0]
    simp
  rw [hown, hsum, hlen] at happ
  have hq : ((100 : ℚ) + 0 / ((1 : ℕ) : ℚ)) / 2 * 10 = ((500 : ℤ) : ℚ) := by norm_num
  rw [round1_eval _ 500 hq] at happ
  rw [happ]
  norm_num
  exact ⟨hmem, hne⟩

/-- C4, counterexample: with one required tag and an empty catalog the
per-required-tag `compliance_percentage` is computed with a zero
denominator and the code substitutes `0`, not `100.0`. -/
theorem C4_counterexample :
    (reportOfExcept ((mkAnalyzer ["Environment"] []).analyze_resource_tags
        [])).required_tags_compliance.map (fun e => e.compliance_percentage) = [0] ∧
    (0 : ℚ) ≠ 100 := by
  constructor
  · rfl
  · norm_num

/-- C4 (amended): zero denominators never raise, but only the overall
compliance substitutes 100.0; the per-required-tag and per-tag
percentages substitute 0 when there are zero resources. -/
theorem C4_zero_denominator (a : TagAnalyzer) (cat : List (String × PyVal)) (r : Report)
    (h : a.analyze_resource_tags cat = .ok r) (h0 : r.summary.total_resources = 0) :
    (∀ e ∈ r.required_tags_compliance, e.compliance_percentage = 0) ∧
    (∀ u ∈ r.tag_usage, u.usage_percentage = 0) ∧
    ((a.required_tags = [] ∨ r.resource_groups_details = []) →
      r.summary.overall_compliance_rate = 100) := by
  rcases analyze_ok_elim a cat r h with ⟨rgItems, rgInfo0, s, _, _, _, rfl⟩
  have hst : s.total_resources = 0 := h0
  refine ⟨?_, ?_, ?_⟩
  · intro e he
    unfold TagAnalyzer.buildReport at he
    dsimp only at he
    rcases List.mem_map.mp he with ⟨t, _, he2⟩
    rw [← he2]
    simp [hst]
  · intro u hu
    unfold TagAnalyzer.buildReport at hu
    dsimp only at hu
    rcases List.mem_map.mp hu with ⟨g, _, hu2⟩
    rw [← hu2]
    simp [hst]
  · intro hOr
    show a.calculate_overall_compliance s.missing_tags_by_resource s.total_resources
      (build_resource_groups_summary s.resource_groups_info) = 100
    rcases hOr with hreq | hd
    · unfold TagAnalyzer.calculate_overall_compliance
      rw [if_pos (by simp [hreq])]
    · have hd' : build_resource_groups_summary s.resource_groups_info = [] := hd
      unfold TagAnalyzer.calculate_overall_compliance
      by_cases hreq : a.required_tags.isEmpty
      · rw [if_pos hreq]
      · rw [if_neg hreq, if_pos (by simp [hst, hd'])]

def rptC4w : Report := reportOfExcept ((mkAnalyzer ["Environment"] []).analyze_resource_tags [])

def dfltRTC : RequiredTagCompliance := ⟨"", 0, 0, 0⟩

theorem C4_zero_denominator_witness :
    (rptC4w.required_tags_compliance.getD 0 dfltRTC) ∈ rptC4w.required_tags_compliance ∧
    (rptC4w.required_tags_compliance.getD 0 dfltRTC).compliance_percentage = 0 ∧
    rptC4w.summary.overall_compliance_rate = 100 := by
  have hmem : (rptC4w.required_tags_compliance.getD 0 dfltRTC)
      ∈ rptC4w.required_tags_compliance := by
    have h1 : rptC4w.required_tags_compliance
        = [rptC4w.required_tags_compliance.getD 0 dfltRTC] := rfl
    rw [h1]
    exact List.mem_singleton.mpr rfl
  have happ := C4_zero_denominator (mkAnalyzer ["Environment"] []) [] rptC4w rfl rfl
  exact ⟨hmem, happ.1 _ hmem, happ.2.2 (Or.inr rfl)⟩

theorem mem_dedupFirstAux (l : List String) :
    ∀ (seen : List String) (x : String),
      x ∈ dedupFirstAux seen l ↔ (x ∈ l ∧ seen.contains x = false) := by
  induction l with
  | nil => intro seen x; simp [dedupFirstAux]
  | cons y ys ih =>
      intro seen x
      unfold dedupFirstAux
      by_cases hy : seen.contains y = true
      · rw [if_pos hy, ih]
        constructor
        · rintro ⟨hxs, hsx⟩
          exact ⟨List.mem_cons_of_mem _ hxs, hsx⟩
        · rintro ⟨hxs, hsx⟩
          rcases List.mem_cons.mp hxs with rfl | hxs'
          · rw [hy] at hsx; cases hsx
          · exact ⟨hxs', hsx⟩
      · rw [if_neg hy]
        constructor
        · intro hx
          rcases List.mem_cons.mp hx with rfl | hx'
          · exact ⟨List.mem_cons_self _ _, by simpa using hy⟩
          · rcases (ih _ _).mp hx' with ⟨hxs, hsx⟩
            have hxny : x ≠ y := by
              intro hxy
              apply absurd hsx
              simp [List.contains_cons, hxy] at *
            refine ⟨List.mem_cons_of_mem _ hxs, ?_⟩
            simp [List.contains_cons] at hsx
            simpa [List.contains_cons] using hsx.2
        · rintro ⟨hxs, hsx⟩
          rcases List.mem_cons.mp hxs with rfl | hxs'
          · exact List.mem_cons_self _ _
          · by_cases hxy : x = y
            · subst hxy
              exact List.mem_cons_self _ _
            · refine List.mem_cons_of_mem _ ((ih _ _).mpr ⟨hxs', ?_⟩)
              simp [List.contains_cons, hxy]
              simpa using hsx

theorem mem_dedupFirst (l : List String) (x : String) : x ∈ dedupFirst l ↔ x ∈ l := by
  unfold dedupFirst
  rw [mem_dedupFirstAux]
  simp

theorem dedupFirst_eq_nil_iff (l : List String) : dedupFirst l = [] ↔ l = [] := by
  cases l with
  | nil => simp [dedupFirst, dedupFirstAux]
  | cons y ys => simp [dedupFirst, dedupFirstAux]

/-- C8, counterexample: a configured invalid value carrying surrounding
whitespace (`" tbd "`) fails to match the tag value `"tbd"`, although
under the claim's two-sided trimming both normalise to `"tbd"`; the
configured side is lowercased but never trimmed. -/
theorem C8_counterexample :
    (mkAnalyzer [] [.str " tbd "]).is_tag_value_valid (.str "tbd") = true ∧
    pyStrip (pyLower (pyStr (.str " tbd "))) = pyStrip (pyLower (pyStr (.str "tbd"))) :=
  ⟨rfl, rfl⟩

/-- `str(v) if v is not None else ""`, the value coercion used both by the
constructor's normalisation and by `_is_tag_value_valid`. -/
def strOrEmpty : PyVal → String
  | .none => ""
  | v => pyStr v

/-- C8 (amended): a tag value counts as invalid iff the invalid-value set
is non-empty and `strip(lower(str(v)))` (with `None` treated as `""`)
occurs among the configured values normalised by `lower(str(s))` only —
the configured side is lowercased but not trimmed. -/
theorem C8_invalid_matching (req : List String) (inv : List PyVal) (v : PyVal) :
    (mkAnalyzer req inv).is_tag_value_valid v = false ↔
      (inv ≠ [] ∧
        pyStrip (pyLower (strOrEmpty v)) ∈ inv.map (fun w => pyLower (strOrEmpty w))) := by
  have hf : (fun w : PyVal => match w with | .none => "" | w => pyLower (pyStr w)) =
      (fun w => pyLower (strOrEmpty w)) := funext fun w => by cases w <;> rfl
  have hv : (match v with | .none => "" | v => pyStr v) = strOrEmpty v := by
    cases v <;> rfl
  unfold TagAnalyzer.is_tag_value_valid mkAnalyzer
  dsimp only
  rw [hv, hf]
  by_cases hinv : inv = []
  · subst hinv
    simp [dedupFirst, dedupFirstAux]
  · have hdne : dedupFirst (inv.map fun w => pyLower (strOrEmpty w)) ≠ [] := by
      rw [Ne, dedupFirst_eq_nil_iff, List.map_eq_nil_iff]
      exact hinv
    rw [if_neg (by rw [List.isEmpty_iff]; exact hdne)]
    constructor
    · intro hfalse
      have hc : (dedupFirst (inv.map fun w => pyLower (strOrEmpty w))).contains
          (pyStrip (pyLower (strOrEmpty v))) = true := by
        have h2 := congrArg (fun b => !b) hfalse
        simp only [Bool.not_not, Bool.not_false] at h2
        exact h2
      exact ⟨hinv, (mem_dedupFirst _ _).mp (List.elem_iff.mp hc)⟩
    · rintro ⟨-, hmem⟩
      have hc : (dedupFirst (inv.map fun w => pyLower (strOrEmpty w))).contains
          (pyStrip (pyLower (strOrEmpty v))) = true :=
        List.elem_iff.mpr ((mem_dedupFirst _ _).mpr hmem)
      rw [hc]
      rfl

theorem C8_invalid_matching_witness :
    (mkAnalyzer [] [.str "None"]).is_tag_value_valid (.str " NONE ") = false := by
  refine (C8_invalid_matching [] [.str "None"] (.str " NONE ")).mpr ⟨?_, ?_⟩
  · intro hc
    cases hc
  · have h1 : pyStrip (pyLower (strOrEmpty (.str " NONE "))) = "none" := rfl
    have h2 : ([PyVal.str "None"].map (fun w => pyLower (strOrEmpty w))) = ["none"] := rfl
    rw [h1, h2]
    exact List.mem_singleton.mpr rfl

/-- C5, counterexample: a non-iterable value under the reserved
`'resource_groups'` key is iterated before any list check (line 70) and
raises `TypeError` — the analysis aborts instead of skipping it. -/
theorem C5_counterexample :
    (mkAnalyzer [] []).analyze_resource_tags [("resource_groups", .int 42)]
      = .error .typeError := rfl

/-- A resource record processable without raising: any non-dict, or a dict
whose `tags` is a dict or falsy and whose `resource_group` is hashable. -/
def goodResourceRecord (r : PyVal) : Bool :=
  match r with
  | .dict m =>
      (match tagsValueOf m with | .dict _ => true | _ => false) &&
      isHashable (dictGetD m (.str "resource_group") (.str "N/A"))
  | _ => true

/-- A resource-group record processable without raising. -/
def goodRGRecord (rg : PyVal) : Bool :=
  match rg with
  | .dict m =>
      (match tagsValueOf m with | .dict _ => true | _ => false) &&
      isHashable (dictGetD m (.str "name") (.str "Unknown"))
  | _ => true

/-- The shape condition under which `analyze_resource_tags` is total: the
`'resource_groups'` value (defaulted to `[]`) is a list of good records,
and list values under other keys hold good records; non-list values under
other keys need no condition (they are skipped). -/
def wellShaped (cat : List (String × PyVal)) : Bool :=
  (match catalogGetD cat "resource_groups" (.list []) with
   | .list rgs => rgs.all goodRGRecord
   | _ => false) &&
  cat.all fun e =>
    match e.2 with
    | .list items =>
        if e.1 = "resource_groups" || e.1 = "all_resources" then true
        else items.all goodResourceRecord
    | _ => true

theorem processRG_ok_of_good (a : TagAnalyzer) (rg : PyVal)
    (h : goodRGRecord rg = true) : ∃ o, a.processRG rg = .ok o := by
  cases rg with
  | dict m =>
      unfold goodRGRecord at h
      dsimp only at h
      unfold TagAnalyzer.processRG
      dsimp only
      cases htv : tagsValueOf m with
      | dict rg_tags =>
          dsimp only
          rw [htv] at h
          dsimp only at h
          rw [if_pos (by simpa using h)]
          exact ⟨_, rfl⟩
      | none => rw [htv] at h; simp at h
      | bool b => rw [htv] at h; simp at h
      | int n => rw [htv] at h; simp at h
      | str v => rw [htv] at h; simp at h
      | list xs => rw [htv] at h; simp at h
  | none => exact ⟨_, rfl⟩
  | bool b => exact ⟨_, rfl⟩
  | int n => exact ⟨_, rfl⟩
  | str v => exact ⟨_, rfl⟩
  | list xs => exact ⟨_, rfl⟩

theorem processResource_ok_of_good (a : TagAnalyzer) (t : String) (s : AState) (r : PyVal)
    (h : goodResourceRecord r = true) : ∃ s', a.processResource t s r = .ok s' := by
  cases r with
  | dict m =>
      unfold goodResourceRecord at h
      dsimp only at h
      unfold TagAnalyzer.processResource
      dsimp only
      cases htv : tagsValueOf m with
      | dict resource_tags =>
          dsimp only
          rw [htv] at h
          dsimp only at h
          rw [if_pos (by simpa using h)]
          exact ⟨_, rfl⟩
      | none => rw [htv] at h; simp at h
      | bool b => rw [htv] at h; simp at h
      | int n => rw [htv] at h; simp at h
      | str v => rw [htv] at h; simp at h
      | list xs => rw [htv] at h; simp at h
  | none => exact ⟨_, rfl⟩
  | bool b => exact ⟨_, rfl⟩
  | int n => exact ⟨_, rfl⟩
  | str v => exact ⟨_, rfl⟩
  | list xs => exact ⟨_, rfl⟩

theorem extractRGs_ok (a : TagAnalyzer) :
    ∀ (items : List PyVal) (acc : List (PyVal × RGInfo)),
      items.all goodRGRecord = true → ∃ out, a.extractRGs acc items = .ok out := by
  intro items
  induction items with
  | nil => intro acc _; exact ⟨acc, rfl⟩
  | cons rg rest ih =>
      intro acc hall
      rw [List.all_cons, Bool.and_eq_true] at hall
      rcases processRG_ok_of_good a rg hall.1 with ⟨o, ho⟩
      unfold TagAnalyzer.extractRGs
      rw [ho]
      cases o with
      | some ki =>
          rcases ih (rgSet acc ki.1 ki.2) hall.2 with ⟨out, hout⟩
          exact ⟨out, hout⟩
      | none => exact ih acc hall.2

theorem processTypeItems_ok (a : TagAnalyzer) (t : String) :
    ∀ (items : List PyVal) (s : AState),
      items.all goodResourceRecord = true → ∃ s', a.processTypeItems t s items = .ok s' := by
  intro items
  induction items with
  | nil => intro s _; exact ⟨s, rfl⟩
  | cons r rest ih =>
      intro s hall
      rw [List.all_cons, Bool.and_eq_true] at hall
      rcases processResource_ok_of_good a t s r hall.1 with ⟨s1, hs1⟩
      unfold TagAnalyzer.processTypeItems
      rw [hs1]
      exact ih s1 hall.2

theorem analyzeLoop_ok (a : TagAnalyzer) :
    ∀ (es : List (String × PyVal)) (s : AState),
      (es.all fun e =>
        match e.2 with
        | .list items =>
            if e.1 = "resource_groups" || e.1 = "all_resources" then true
            else items.all goodResourceRecord
        | _ => true) = true →
      ∃ s', a.analyzeLoop s es = .ok s' := by
  intro es
  induction es with
  | nil => intro s _; exact ⟨s, rfl⟩
  | cons e rest ih =>
      intro s hall
      rw [List.all_cons, Bool.and_eq_true] at hall
      have he : ∃ s1, a.processEntry s e = .ok s1 := by
        unfold TagAnalyzer.processEntry
        cases hv : e.2 with
        | list items =>
            dsimp only
            by_cases hk : (e.1 = "resource_groups" || e.1 = "all_resources") = true
            · rw [if_pos hk]; exact ⟨s, rfl⟩
            · rw [if_neg hk]
              apply processTypeItems_ok a e.1 items s
              have h1 := hall.1
              rw [hv] at h1
              dsimp only at h1
              rwa [if_neg hk] at h1
        | none => exact ⟨s, rfl⟩
        | bool b => exact ⟨s, rfl⟩
        | int n => exact ⟨s, rfl⟩
        | str v => exact ⟨s, rfl⟩
        | dict m => exact ⟨s, rfl⟩
      rcases he with ⟨s1, hs1⟩
      unfold TagAnalyzer.analyzeLoop
      rw [hs1]
      exact ih s1 hall.2

/-- C5 (amended): on every well-shaped catalog the analyzer raises nothing
and returns a complete report; malformed-but-tolerated data (non-list
values under ordinary keys, non-dict entries, missing fields, `None` tag
maps) is skipped or defaulted silently. -/
theorem C5_no_raise (a : TagAnalyzer) (cat : List (String × PyVal))
    (hw : wellShaped cat = true) : ∃ r, a.analyze_resource_tags cat = .ok r := by
  unfold wellShaped at hw
  rw [Bool.and_eq_true] at hw
  unfold TagAnalyzer.analyze_resource_tags
  cases hval : catalogGetD cat "resource_groups" (.list []) with
  | list rgs =>
      have hall : rgs.all goodRGRecord = true := by
        have h1 := hw.1
        rw [hval] at h1
        exact h1
      dsimp only [pyIter]
      rcases extractRGs_ok a rgs [] hall with ⟨rgInfo0, hext⟩
      rw [hext]
      dsimp only
      rcases analyzeLoop_ok a cat (initState rgInfo0) hw.2 with ⟨s, hloop⟩
      rw [hloop]
      exact ⟨_, rfl⟩
  | none => rw [hval] at hw; simp at hw
  | bool b => rw [hval] at hw; simp at hw
  | int n => rw [hval] at hw; simp at hw
  | str v => rw [hval] at hw; simp at hw
  | dict m => rw [hval] at hw; simp at hw

def catC5w : List (String × PyVal) :=
  [("weird", .int 5),
   ("vms", .list [.str "junk", .none,
      .dict [(.str "tags", .none)], .dict []]),
   ("resource_groups", .list [.str "x",
      .dict [(.str "name", .str "rg"), (.str "tags", .none)]]),
   ("all_resources", .int 7)]

theorem C5_no_raise_witness :
    wellShaped catC5w = true ∧
    ((mkAnalyzer ["Environment"] []).analyze_resource_tags catC5w).toOption.isSome = true := by
  refine ⟨rfl, ?_⟩
  rcases C5_no_raise (mkAnalyzer ["Environment"] []) catC5w rfl with ⟨r, hr⟩
  rw [hr]
  rfl

def aC1 : TagAnalyzer := mkAnalyzer ["Environment", "Owner"] []

/-- The input of the repository's own
`test_resource_sorting.test_resources_sorted_non_compliant_first`,
reduced to one compliant resource listed before one non-compliant one. -/
def catC1 : List (String × PyVal) :=
  [("resource_groups", .list [.dict [(.str "name", .str "rg1"),
      (.str "tags", .dict [(.str "Environment", .str "prod"),
        (.str "Owner", .str "team1")])]]),
   ("virtual_machines", .list [
      .dict [(.str "name", .str "vm-compliant-1"), (.str "resource_group", .str "rg1"),
        (.str "tags", .dict [(.str "Environment", .str "prod"),
          (.str "Owner", .str "team1")])],
      .dict [(.str "name", .str "vm-non-compliant-1"), (.str "resource_group", .str "rg1"),
        (.str "tags", .dict [(.str "Environment", .str "prod")])]])]

def rptC1 : Report := reportOfExcept (aC1.analyze_resource_tags catC1)

/-- C1 (failing evaluation): the group's member list keeps input order —
the fully compliant resource stays first and the rates read `[100, 50]`,
which is not non-decreasing; the code never sorts members within a group
(only the groups themselves, line 273), although the repository's own
tests in `test_resource_sorting.py` assert non-compliant-first order. -/
theorem C1_unsorted_members_eval :
    rptC1.resource_groups_details.map
        (fun e => e.resources.map (fun ri => pyStr ri.resource_name))
      = [["vm-compliant-1", "vm-non-compliant-1"]] ∧
    rptC1.resource_groups_details.map (fun e => e.resources.map (·.compliance_rate))
      = [[100, 50]] ∧
    ¬ ((100 : ℚ) ≤ 50) := by
  refine ⟨rfl, ?_, by norm_num⟩
  have hc1 : aC1.calculate_resource_compliance
      (([((.str "Environment" : PyVal), (.str "prod" : PyVal)),
         ((.str "Owner" : PyVal), (.str "team1" : PyVal))]).map (·.1))
      (some [((.str "Environment" : PyVal), (.str "prod" : PyVal)),
             ((.str "Owner" : PyVal), (.str "team1" : PyVal))]) = 100 :=
    calc_of_no_missing_invalid aC1 _ rfl rfl
  have hfl : (aC1.required_tags.filter fun tag_name =>
      pyMem (.str tag_name)
        (([((.str "Environment" : PyVal), (.str "prod" : PyVal))]).map (·.1)) &&
        (match some [((.str "Environment" : PyVal), (.str "prod" : PyVal))] with
         | some tags => aC1.is_tag_value_valid (dictGetD tags (.str tag_name) .none)
         | Option.none => true)).length = 1 := rfl
  have hc2 : aC1.calculate_resource_compliance
      (([((.str "Environment" : PyVal), (.str "prod" : PyVal))]).map (·.1))
      (some [((.str "Environment" : PyVal), (.str "prod" : PyVal))]) = 50 := by
    unfold TagAnalyzer.calculate_resource_compliance
    rw [if_neg (by decide : ¬(aC1.required_tags.isEmpty = true))]
    dsimp only
    rw [hfl]
    have hlen : aC1.required_tags.length = 2 := rfl
    rw [hlen]
    have h10 : ((1 : ℕ) : ℚ) / ((2 : ℕ) : ℚ) * 100 * 10 = ((500 : ℤ) : ℚ) := by
      push_cast
      norm_num
    rw [round1_eval _ 500 h10]
    norm_num
  have h1 : rptC1.resource_groups_details.map (fun e => e.resources.map (·.compliance_rate))
      = [[aC1.calculate_resource_compliance
            (([((.str "Environment" : PyVal), (.str "prod" : PyVal)),
               ((.str "Owner" : PyVal), (.str "team1" : PyVal))]).map (·.1))
            (some [((.str "Environment" : PyVal), (.str "prod" : PyVal)),
                   ((.str "Owner" : PyVal), (.str "team1" : PyVal))]),
          aC1.calculate_resource_compliance
            (([((.str "Environment" : PyVal), (.str "prod" : PyVal))]).map (·.1))
            (some [((.str "Environment" : PyVal), (.str "prod" : PyVal))])]] := rfl
  rw [h1, hc1, hc2]

theorem find?_filter_ne (cat : List (String × PyVal)) (k k' : String) (h : k ≠ k') :
    ((cat.filter fun e => e.1 ≠ k').find? fun p => p.1 == k)
      = cat.find? fun p => p.1 == k := by
  induction cat with
  | nil => rfl
  | cons e rest ih =>
      rw [List.filter_cons]
      by_cases he : e.1 = k'
      · have hek : (e.1 == k) = false := by
          rw [he]
          exact beq_eq_false_iff_ne.mpr fun hh => h hh.symm
        rw [if_neg (by simp [he]), ih]
        simp only [List.find?, hek]
      · rw [if_pos (by simp [he])]
        cases hk : (e.1 == k) with
        | true => simp only [List.find?, hk]
        | false =>
            simp only [List.find?, hk]
            exact ih

theorem catalogGetD_filter_ne (cat : List (String × PyVal)) (k k' : String) (d : PyVal)
    (h : k ≠ k') :
    catalogGetD (cat.filter fun e => e.1 ≠ k') k d = catalogGetD cat k d := by
  unfold catalogGetD
  rw [find?_filter_ne cat k k' h]

theorem processEntry_skip (a : TagAnalyzer) (s : AState) (e : String × PyVal)
    (hk : e.1 = "resource_groups" ∨ e.1 = "all_resources") :
    a.processEntry s e = .ok s := by
  unfold TagAnalyzer.processEntry
  cases hv : e.2 with
  | list items =>
      dsimp only
      rw [if_pos (by rcases hk with h | h <;> simp [h])]
  | none => rfl
  | bool b => rfl
  | int n => rfl
  | str v => rfl
  | dict m => rfl

theorem analyzeLoop_cons (a : TagAnalyzer) (s : AState) (e : String × PyVal)
    (rest : List (String × PyVal)) :
    a.analyzeLoop s (e :: rest) =
      match a.processEntry s e with
      | .ok s' => a.analyzeLoop s' rest
      | .error err => .error err := rfl

theorem analyzeLoop_filter_skip (a : TagAnalyzer) (k : String)
    (hk : k = "resource_groups" ∨ k = "all_resources") :
    ∀ (es : List (String × PyVal)) (s : AState),
      a.analyzeLoop s (es.filter fun e => e.1 ≠ k) = a.analyzeLoop s es := by
  intro es
  induction es with
  | nil => intro s; rfl
  | cons e rest ih =>
      intro s
      rw [List.filter_cons]
      by_cases he : e.1 = k
      · rw [if_neg (by simp [he])]
        have hskip : a.processEntry s e = .ok s :=
          processEntry_skip a s e (by rw [he]; exact hk)
        rw [ih s, analyzeLoop_cons, hskip]
      · rw [if_pos (by simp [he])]
        rw [analyzeLoop_cons, analyzeLoop_cons]
        cases hpe : a.processEntry s e with
        | ok s1 =>
            dsimp only
            exact ih s1
        | error err => rfl

/-- Equality of the per-resource accumulator components (everything except
`resource_groups_info`). -/
def perResourceEq (s1 s2 : AState) : Prop :=
  s1.all_tags = s2.all_tags ∧ s1.resources_with_tags = s2.resources_with_tags ∧
  s1.resources_without_tags = s2.resources_without_tags ∧
  s1.total_resources = s2.total_resources ∧
  s1.missing_tags_by_resource = s2.missing_tags_by_resource ∧
  s1.tag_values = s2.tag_values

theorem stepState_perResourceEq (a : TagAnalyzer) (t : String)
    (m rt : List (PyVal × PyVal)) {s1 s2 : AState} (h : perResourceEq s1 s2) :
    perResourceEq (a.stepState t s1 m rt) (a.stepState t s2 m rt) := by
  obtain ⟨h1, h2, h3, h4, h5, h6⟩ := h
  unfold TagAnalyzer.stepState perResourceEq
  dsimp only
  exact ⟨by rw [h1], by rw [h2], by rw [h3], by rw [h4], by rw [h5], by rw [h6]⟩

theorem processResource_bisim (a : TagAnalyzer) (t : String) (r : PyVal)
    {s1 s2 u1 : AState} (h : perResourceEq s1 s2)
    (h1 : a.processResource t s1 r = .ok u1) :
    ∃ u2, a.processResource t s2 r = .ok u2 ∧ perResourceEq u1 u2 := by
  rcases processResource_ok_cases a t s1 r u1 h1 with ⟨hnd, rfl⟩ | ⟨m, rt, rfl, htv, hh, rfl⟩
  · refine ⟨s2, ?_, h⟩
    cases r with
    | dict m => exact absurd rfl (hnd m)
    | none => rfl
    | bool b => rfl
    | int n => rfl
    | str v => rfl
    | list xs => rfl
  · refine ⟨a.stepState t s2 m rt, ?_, stepState_perResourceEq a t m rt h⟩
    unfold TagAnalyzer.processResource
    dsimp only
    rw [htv]
    dsimp only
    rw [if_pos hh]

theorem processTypeItems_bisim (a : TagAnalyzer) (t : String) :
    ∀ (items : List PyVal) {s1 s2 u1 : AState}, perResourceEq s1 s2 →
      a.processTypeItems t s1 items = .ok u1 →
      ∃ u2, a.processTypeItems t s2 items = .ok u2 ∧ perResourceEq u1 u2 := by
  intro items
  induction items with
  | nil =>
      intro s1 s2 u1 h h1
      unfold TagAnalyzer.processTypeItems at h1 ⊢
      cases h1
      exact ⟨s2, rfl, h⟩
  | cons r rest ih =>
      intro s1 s2 u1 h h1
      unfold TagAnalyzer.processTypeItems at h1 ⊢
      cases hr : a.processResource t s1 r with
      | ok v1 =>
          rw [hr] at h1
          rcases processResource_bisim a t r h hr with ⟨v2, hv2, hpe⟩
          rw [hv2]
          exact ih hpe h1
      | error e => rw [hr] at h1; cases h1

theorem analyzeLoop_bisim (a : TagAnalyzer) :
    ∀ (es : List (String × PyVal)) {s1 s2 t1 : AState}, perResourceEq s1 s2 →
      a.analyzeLoop s1 es = .ok t1 →
      ∃ t2, a.analyzeLoop s2 es = .ok t2 ∧ perResourceEq t1 t2 := by
  intro es
  induction es with
  | nil =>
      intro s1 s2 t1 h h1
      unfold TagAnalyzer.analyzeLoop at h1 ⊢
      cases h1
      exact ⟨s2, rfl, h⟩
  | cons e rest ih =>
      intro s1 s2 t1 h h1
      unfold TagAnalyzer.analyzeLoop at h1 ⊢
      cases hpe : a.processEntry s1 e with
      | ok v1 =>
          rw [hpe] at h1
          have hstep : ∃ v2, a.processEntry s2 e = .ok v2 ∧ perResourceEq v1 v2 := by
            unfold TagAnalyzer.processEntry at hpe ⊢
            cases hv : e.2 with
            | list items =>
                rw [hv] at hpe
                dsimp only at hpe ⊢
                by_cases hk : (e.1 = "resource_groups" || e.1 = "all_resources") = true
                · rw [if_pos hk] at hpe ⊢
                  cases hpe
                  exact ⟨s2, rfl, h⟩
                · rw [if_neg hk] at hpe ⊢
                  exact processTypeItems_bisim a e.1 items h hpe
            | none => rw [hv] at hpe; cases hpe; exact ⟨s2, rfl, h⟩
            | bool b => rw [hv] at hpe; cases hpe; exact ⟨s2, rfl, h⟩
            | int n => rw [hv] at hpe; cases hpe; exact ⟨s2, rfl, h⟩
            | str v => rw [hv] at hpe; cases hpe; exact ⟨s2, rfl, h⟩
            | dict m => rw [hv] at hpe; cases hpe; exact ⟨s2, rfl, h⟩
          rcases hstep with ⟨v2, hv2, hpe2⟩
          rw [hv2]
          exact ih hpe2 h1
      | error err => rw [hpe] at h1; cases h1

/-- C9: entries under `'all_resources'` contribute nothing at all
(removing them leaves the report unchanged), and entries under
`'resource_groups'` contribute nothing to per-resource counting (removing
them leaves `total_resources`, `resources_with_tags`,
`resources_without_tags`, `tag_usage` and `non_compliant_resources`
unchanged). -/
theorem C9_special_keys_excluded (a : TagAnalyzer) (cat : List (String × PyVal)) :
    a.analyze_resource_tags (cat.filter fun e => e.1 ≠ "all_resources")
        = a.analyze_resource_tags cat ∧
    ∀ r r', a.analyze_resource_tags cat = .ok r →
      a.analyze_resource_tags (cat.filter fun e => e.1 ≠ "resource_groups") = .ok r' →
      (r'.summary.total_resources = r.summary.total_resources ∧
       r'.summary.resources_with_tags = r.summary.resources_with_tags ∧
       r'.summary.resources_without_tags = r.summary.resources_without_tags ∧
       r'.tag_usage = r.tag_usage ∧
       r'.non_compliant_resources = r.non_compliant_resources) := by
  constructor
  · unfold TagAnalyzer.analyze_resource_tags
    rw [catalogGetD_filter_ne cat "resource_groups" "all_resources" (.list []) (by decide)]
    cases h1 : pyIter (catalogGetD cat "resource_groups" (.list [])) with
    | error e => rfl
    | ok rgItems =>
        dsimp only
        cases h2 : a.extractRGs [] rgItems with
        | error e => rfl
        | ok rgInfo0 =>
            dsimp only
            rw [analyzeLoop_filter_skip a "all_resources" (Or.inr rfl) cat (initState rgInfo0)]
  · intro r r' h h'
    rcases analyze_ok_elim a cat r h with ⟨rgItems, rgInfo0, s, h1, h2, h3, rfl⟩
    rcases analyze_ok_elim a _ r' h' with ⟨rgItems', rgInfo0', s', h1', h2', h3', rfl⟩
    rw [analyzeLoop_filter_skip a "resource_groups" (Or.inl rfl) cat (initState rgInfo0')] at h3'
    have hPR : perResourceEq (initState rgInfo0) (initState rgInfo0') :=
      ⟨rfl, rfl, rfl, rfl, rfl, rfl⟩
    rcases analyzeLoop_bisim a cat hPR h3 with ⟨t2, ht2, hpe⟩
    rw [ht2] at h3'
    obtain rfl : t2 = s' := Except.ok.inj h3'
    obtain ⟨e1, e2, e3, e4, e5, e6⟩ := hpe
    unfold TagAnalyzer.buildReport
    dsimp only
    refine ⟨e4.symm, e2.symm, e3.symm, ?_, e5.symm⟩
    rw [← e1, ← e4, ← e6]

def catC9w : List (String × PyVal) :=
  [("resource_groups", .list [.dict [(.str "name", .str "rg1"),
      (.str "tags", .dict [(.str "Environment", .str "prod")])]]),
   ("virtual_machines", .list [.dict [(.str "name", .str "vm1"),
      (.str "resource_group", .str "rg1"), (.str "tags", .dict [])]]),
   ("all_resources", .list [.dict [(.str "name", .str "vm1"),
      (.str "resource_group", .str "rg1"), (.str "tags", .dict [])]])]

def rptC9w : Report :=
  reportOfExcept ((mkAnalyzer ["Environment"] []).analyze_resource_tags catC9w)

def rptC9wNoRG : Report :=
  reportOfExcept ((mkAnalyzer ["Environment"] []).analyze_resource_tags
    (catC9w.filter fun e => e.1 ≠ "resource_groups"))

theorem C9_special_keys_excluded_witness :
    (mkAnalyzer ["Environment"] []).analyze_resource_tags
        (catC9w.filter fun e => e.1 ≠ "all_resources")
      = (mkAnalyzer ["Environment"] []).analyze_resource_tags catC9w ∧
    (rptC9wNoRG.summary.total_resources = rptC9w.summary.total_resources ∧
     rptC9wNoRG.summary.resources_with_tags = rptC9w.summary.resources_with_tags ∧
     rptC9wNoRG.summary.resources_without_tags = rptC9w.summary.resources_without_tags ∧
     rptC9wNoRG.tag_usage = rptC9w.tag_usage ∧
     rptC9wNoRG.non_compliant_resources = rptC9w.non_compliant_resources) :=
  ⟨(C9_special_keys_excluded (mkAnalyzer ["Environment"] []) catC9w).1,
   (C9_special_keys_excluded (mkAnalyzer ["Environment"] []) catC9w).2
     rptC9w rptC9wNoRG rfl rfl⟩

/-- The dict records of a list (non-dict entries are skipped). -/
def dictEntries (items : List PyVal) : List (List (PyVal × PyVal)) :=
  items.filterMap fun r => match r with | .dict m => some m | _ => Option.none

/-- The individually counted resources of a catalog: the dict records of
list values under keys other than the two reserved ones — exactly the
resources `analyze_resource_tags` counts. -/
def countedResources : List (String × PyVal) → List (List (PyVal × PyVal))
  | [] => []
  | e :: rest =>
    match e.2 with
    | .list items =>
        if e.1 = "resource_groups" || e.1 = "all_resources" then countedResources rest
        else dictEntries items ++ countedResources rest
    | _ => countedResources rest

/-- The (defaulted) tags dict of a record; a truthy non-dict `tags` (which
makes the analyzer raise, so never reaches a report) defaults to `[]`. -/
def tagsListOf (m : List (PyVal × PyVal)) : List (PyVal × PyVal) :=
  match tagsValueOf m with
  | .dict ts => ts
  | _ => []

/-- Modelled from the spec: the per-resource compliance of a counted
resource, as the uniform-average formula of the spec reads it — the
compliance rate of the resource's tags map. -/
def TagAnalyzer.specResourceCompliance (a : TagAnalyzer) (m : List (PyVal × PyVal)) : ℚ :=
  a.calculate_resource_compliance ((tagsListOf m).map (·.1)) (some (tagsListOf m))

theorem mkResourceInfo_compliance (a : TagAnalyzer) (t : String)
    (m rt : List (PyVal × PyVal)) :
    (a.mkResourceInfo t m rt).compliance_rate
      = a.calculate_resource_compliance (rt.map (·.1)) (some rt) := rfl

theorem stepState_missing_split (a : TagAnalyzer) (t : String) (s : AState)
    (m rt : List (PyVal × PyVal)) (htv : tagsValueOf m = .dict rt) :
    ((a.stepState t s m rt).missing_tags_by_resource = s.missing_tags_by_resource ∧
      a.specResourceCompliance m = 100) ∨
    (∃ ri : ResourceInfo,
      (a.stepState t s m rt).missing_tags_by_resource = s.missing_tags_by_resource ++ [ri] ∧
      ri.compliance_rate = a.specResourceCompliance m ∧ 0 ≤ ri.compliance_rate) := by
  have hts : tagsListOf m = rt := by simp [tagsListOf, htv]
  by_cases hc : (!(a.mkResourceInfo t m rt).missing_tags.isEmpty ||
      !(a.mkResourceInfo t m rt).invalid_value_tags.isEmpty) = true
  · right
    refine ⟨a.mkResourceInfo t m rt, ?_, ?_, ?_⟩
    · unfold TagAnalyzer.stepState
      dsimp only
      rw [if_pos hc]
    · unfold TagAnalyzer.specResourceCompliance
      rw [mkResourceInfo_compliance, hts]
    · rw [mkResourceInfo_compliance]
      exact calculate_resource_compliance_nonneg a _ _
  · left
    constructor
    · unfold TagAnalyzer.stepState
      dsimp only
      rw [if_neg hc]
    · simp only [Bool.or_eq_true, not_or, Bool.not_eq_true, Bool.not_eq_false] at hc
      have h1 := congrArg (fun b => !b) hc.1
      have h2 := congrArg (fun b => !b) hc.2
      simp only [Bool.not_not, Bool.not_false] at h1 h2
      have hm : a.missingTags (rt.map (·.1)) = [] := List.isEmpty_iff.mp h1
      have hi : a.invalidValueTags rt = [] := List.isEmpty_iff.mp h2
      unfold TagAnalyzer.specResourceCompliance
      rw [hts]
      exact calc_of_no_missing_invalid a rt hm hi

theorem processTypeItems_count (a : TagAnalyzer) (t : String) :
    ∀ (items : List PyVal) (s s' : AState),
      a.processTypeItems t s items = .ok s' →
      ∃ new : List ResourceInfo,
        s'.total_resources = s.total_resources + (dictEntries items).length ∧
        s'.missing_tags_by_resource = s.missing_tags_by_resource ++ new ∧
        (∀ ri ∈ new, 0 ≤ ri.compliance_rate) ∧
        (((dictEntries items).length : ℚ) - (new.length : ℚ)) * 100 +
            (new.map (·.compliance_rate)).sum
          = ((dictEntries items).map a.specResourceCompliance).sum := by
  intro items
  induction items with
  | nil =>
      intro s s' h
      unfold TagAnalyzer.processTypeItems at h
      cases h
      exact ⟨[], by simp [dictEntries], by simp, by simp, by simp [dictEntries]⟩
  | cons r rest ih =>
      intro s s' h
      unfold TagAnalyzer.processTypeItems at h
      cases hr : a.processResource t s r with
      | error e => rw [hr] at h; cases h
      | ok s1 =>
          rw [hr] at h
          rcases processResource_ok_cases a t s r s1 hr with ⟨hnd, rfl⟩ | ⟨m, rt, rfl, htv, hh, rfl⟩
          · have hde : dictEntries (r :: rest) = dictEntries rest := by
              cases r with
              | dict m => exact absurd rfl (hnd m)
              | none => simp [dictEntries]
              | bool b => simp [dictEntries]
              | int n => simp [dictEntries]
              | str v => simp [dictEntries]
              | list xs => simp [dictEntries]
            rw [hde]
            exact ih _ s' h
          · rcases ih _ s' h with ⟨new2, ht2, hm2, hn2, he2⟩
            have hde : dictEntries (PyVal.dict m :: rest) = m :: dictEntries rest := by
              simp [dictEntries]
            have hstep_total : (a.stepState t s m rt).total_resources
                = s.total_resources + 1 := rfl
            rcases stepState_missing_split a t s m rt htv with ⟨hms, hspec⟩ | ⟨ri, hms, hrate, hnn⟩
            · refine ⟨new2, ?_, ?_, hn2, ?_⟩
              · rw [hde, List.length_cons]
                rw [hstep_total] at ht2
                omega
              · rw [hms] at hm2
                exact hm2
              · rw [hde]
                simp only [List.map_cons, List.sum_cons, List.length_cons, hspec]
                push_cast
                linear_combination he2
            · refine ⟨ri :: new2, ?_, ?_, ?_, ?_⟩
              · rw [hde, List.length_cons]
                rw [hstep_total] at ht2
                omega
              · rw [hms] at hm2
                rw [hm2, List.append_assoc]
                rfl
              · intro ri' h'
                rcases List.mem_cons.mp h' with rfl | h''
                · exact hnn
                · exact hn2 ri' h''
              · rw [hde]
                simp only [List.map_cons, List.sum_cons, List.length_cons, hrate]
                push_cast
                linear_combination he2

theorem countedResources_cons (e : String × PyVal) (rest : List (String × PyVal)) :
    countedResources (e :: rest) =
      (match e.2 with
       | .list items =>
          if e.1 = "resource_groups" || e.1 = "all_resources" then countedResources rest
          else dictEntries items ++ countedResources rest
       | _ => countedResources rest) := rfl

theorem analyzeLoop_count (a : TagAnalyzer) :
    ∀ (es : List (String × PyVal)) (s s' : AState),
      a.analyzeLoop s es = .ok s' →
      ∃ new : List ResourceInfo,
        s'.total_resources = s.total_resources + (countedResources es).length ∧
        s'.missing_tags_by_resource = s.missing_tags_by_resource ++ new ∧
        (∀ ri ∈ new, 0 ≤ ri.compliance_rate) ∧
        (((countedResources es).length : ℚ) - (new.length : ℚ)) * 100 +
            (new.map (·.compliance_rate)).sum
          = ((countedResources es).map a.specResourceCompliance).sum := by
  intro es
  induction es with
  | nil =>
      intro s s' h
      unfold TagAnalyzer.analyzeLoop at h
      cases h
      exact ⟨[], by simp [countedResources], by simp, by simp, by simp [countedResources]⟩
  | cons e rest ih =>
      intro s s' h
      rw [analyzeLoop_cons] at h
      cases hpe : a.processEntry s e with
      | error err => rw [hpe] at h; cases h
      | ok s1 =>
          rw [hpe] at h
          dsimp only at h
          unfold TagAnalyzer.processEntry at hpe
          cases hv : e.2 with
          | list items =>
              rw [hv] at hpe
              dsimp only at hpe
              by_cases hk : (e.1 = "resource_groups" || e.1 = "all_resources") = true
              · rw [if_pos hk] at hpe
                cases hpe
                have hce : countedResources (e :: rest) = countedResources rest := by
                  rw [countedResources_cons, hv]
                  dsimp only
                  rw [if_pos hk]
                rw [hce]
                exact ih _ s' h
              · rw [if_neg hk] at hpe
                rcases processTypeItems_count a e.1 items s s1 hpe with ⟨n1, t1, m1, nn1, eq1⟩
                rcases ih s1 s' h with ⟨n2, t2, m2, nn2, eq2⟩
                have hce : countedResources (e :: rest)
                    = dictEntries items ++ countedResources rest := by
                  rw [countedResources_cons, hv]
                  dsimp only
                  rw [if_neg hk]
                refine ⟨n1 ++ n2, ?_, ?_, ?_, ?_⟩
                · rw [hce, List.length_append, t1] at *
                  omega
                · rw [m1] at m2
                  rw [m2, List.append_assoc]
                · intro ri h'
                  rcases List.mem_append.mp h' with h'' | h''
                  · exact nn1 ri h''
                  · exact nn2 ri h''
                · rw [hce]
                  simp only [List.length_append, List.map_append, List.sum_append]
                  push_cast
                  linear_combination eq1 + eq2
          | none =>
              rw [hv] at hpe
              cases hpe
              rw [show countedResources (e :: rest) = countedResources rest from by
                rw [countedResources_cons, hv]]
              exact ih _ s' h
          | bool b =>
              rw [hv] at hpe
              cases hpe
              rw [show countedResources (e :: rest) = countedResources rest from by
                rw [countedResources_cons, hv]]
              exact ih _ s' h
          | int n =>
              rw [hv] at hpe
              cases hpe
              rw [show countedResources (e :: rest) = countedResources rest from by
                rw [countedResources_cons, hv]]
              exact ih _ s' h
          | str v =>
              rw [hv] at hpe
              cases hpe
              rw [show countedResources (e :: rest) = countedResources rest from by
                rw [countedResources_cons, hv]]
              exact ih _ s' h
          | dict m =>
              rw [hv] at hpe
              cases hpe
              rw [show countedResources (e :: rest) = countedResources rest from by
                rw [countedResources_cons, hv]]
              exact ih _ s' h

theorem sum_filter_pos (l : List ResourceInfo) (h : ∀ ri ∈ l, 0 ≤ ri.compliance_rate) :
    ((l.filter fun r => r.compliance_rate > 0).map (·.compliance_rate)).sum
      = (l.map (·.compliance_rate)).sum := by
  induction l with
  | nil => rfl
  | cons x xs ih =>
      have hx := h x (List.mem_cons_self x xs)
      have hxs : ∀ ri ∈ xs, 0 ≤ ri.compliance_rate :=
        fun ri hri => h ri (List.mem_cons_of_mem x hri)
      rw [List.filter_cons]
      by_cases hp : x.compliance_rate > 0
      · rw [if_pos (by simpa using hp)]
        simp only [List.map_cons, List.sum_cons]
        rw [ih hxs]
      · rw [if_neg (by simpa using hp)]
        have hzero : x.compliance_rate = 0 := le_antisymm (not_lt.mp hp) hx
        simp only [List.map_cons, List.sum_cons, hzero, zero_add]
        exact ih hxs

/-- C3: when the required-tag set is non-empty and there is at least one
counted resource or group, the reported overall compliance (computed via
the fully-compliant-count × 100 + partial rates + group rates path) equals
the uniform average of every counted resource's compliance and every
group's aggregate compliance, rounded to one decimal. -/
theorem C3_overall_refines_uniform_average (a : TagAnalyzer) (cat : List (String × PyVal))
    (r : Report) (hreq : a.required_tags ≠ [])
    (h : a.analyze_resource_tags cat = .ok r)
    (hpos : 0 < (countedResources cat).length + r.resource_groups_details.length) :
    r.summary.overall_compliance_rate =
      round1 ((((countedResources cat).map a.specResourceCompliance).sum +
          (r.resource_groups_details.map (·.compliance_rate)).sum) /
        (((countedResources cat).length + r.resource_groups_details.length : ℕ) : ℚ)) := by
  rcases analyze_ok_elim a cat r h with ⟨rgItems, rgInfo0, s, h1, h2, h3, rfl⟩
  rcases analyzeLoop_count a cat _ s h3 with ⟨new, htot, hmiss, hnn, heq⟩
  have htot' : s.total_resources = (countedResources cat).length := by
    simpa [initState] using htot
  have hmiss' : s.missing_tags_by_resource = new := by
    simpa [initState] using hmiss
  have hdet : (a.buildReport s).resource_groups_details
      = build_resource_groups_summary s.resource_groups_info := rfl
  have hrate : (a.buildReport s).summary.overall_compliance_rate
      = a.calculate_overall_compliance s.missing_tags_by_resource s.total_resources
          (build_resource_groups_summary s.resource_groups_info) := rfl
  rw [hrate, hdet]
  rw [hdet] at hpos
  have hreqb : ¬(a.required_tags.isEmpty = true) := by
    simpa [List.isEmpty_iff] using hreq
  unfold TagAnalyzer.calculate_overall_compliance
  rw [if_neg hreqb]
  dsimp only
  by_cases hn : s.total_resources = 0
  · have hn0 : (countedResources cat).length = 0 := htot'.symm.trans hn
    have hcnt : countedResources cat = [] := List.length_eq_zero.mp hn0
    have hgpos : 0 < (build_resource_groups_summary s.resource_groups_info).length := by
      omega
    have hGne : build_resource_groups_summary s.resource_groups_info ≠ [] := by
      intro hG
      rw [hG] at hgpos
      simp at hgpos
    rw [if_neg (by simp [hGne]), hn, hcnt]
    simp only [List.length_nil, List.map_nil, List.sum_nil, Nat.zero_add, zero_add,
      gt_iff_lt, Nat.lt_irrefl, if_false]
    rw [if_neg (by omega : ¬((build_resource_groups_summary s.resource_groups_info).length = 0))]
  · have htpos : 0 < s.total_resources := Nat.pos_of_ne_zero hn
    rw [if_neg (by simp [hn])]
    rw [hmiss', htot']
    have hnpos : 0 < (countedResources cat).length := htot' ▸ htpos
    rw [if_pos hnpos, if_pos hnpos]
    rw [if_neg (by omega : ¬((countedResources cat).length + (build_resource_groups_summary s.resource_groups_info).length = 0))]
    congr 1
    rw [sum_filter_pos new hnn]
    congr 1
    linear_combination heq

def catC3w : List (String × PyVal) :=
  [("virtual_machines", .list [.dict [(.str "name", .str "vm1"),
      (.str "resource_group", .str "rg1"), (.str "tags", .dict [])]])]

def rptC3w : Report := reportOfExcept (aC2w.analyze_resource_tags catC3w)

theorem C3_overall_refines_uniform_average_witness :
    rptC3w.summary.overall_compliance_rate =
      round1 ((((countedResources catC3w).map aC2w.specResourceCompliance).sum +
          (rptC3w.resource_groups_details.map (·.compliance_rate)).sum) /
        (((countedResources catC3w).length + rptC3w.resource_groups_details.length : ℕ) : ℚ)) :=
  C3_overall_refines_uniform_average aC2w catC3w rptC3w (by decide) (by rfl) (by decide)

/-! ### Duplicate resource-group names (claim C10) -/

/-- Canonical form of a hashable dict key: Python hashes `True`/`1` and
`False`/`0` identically, matching `==`. -/
def canonKey : PyVal → PyVal
  | .bool b => .int (if b then 1 else 0)
  | v => v

theorem pyEq_hash_iff (x y : PyVal) (hx : isHashable x = true) (hy : isHashable y = true) :
    (pyEq x y = true) ↔ canonKey x = canonKey y := by
  cases x <;> cases y <;>
    simp_all [pyEq, isHashable, canonKey]
  case bool.bool a b => cases a <;> cases b <;> simp

/-- `==` restricted to hashable values is right-congruent. -/
theorem pyEq_congr_right (q x y : PyVal) (hq : isHashable q = true)
    (hx : isHashable x = true) (hy : isHashable y = true)
    (hxy : pyEq x y = true) : pyEq q x = pyEq q y := by
  have hc : canonKey x = canonKey y := (pyEq_hash_iff x y hx hy).mp hxy
  cases h1 : pyEq q x <;> cases h2 : pyEq q y
  · rfl
  · exact absurd ((pyEq_hash_iff q x hq hx).mpr
      (((pyEq_hash_iff q y hq hy).mp h2).trans hc.symm)) (by rw [h1]; simp)
  · exact absurd ((pyEq_hash_iff q y hq hy).mpr
      (((pyEq_hash_iff q x hq hx).mp h1).trans hc)) (by rw [h2]; simp)
  · rfl

theorem processRG_hashable (a : TagAnalyzer) (rg k : PyVal) (info : RGInfo)
    (h : a.processRG rg = .ok (some (k, info))) : isHashable k = true := by
  rcases processRG_ok_some a rg k info h with ⟨m, rg_tags, hm, htv, hk, _⟩
  subst hm
  unfold TagAnalyzer.processRG at h
  dsimp only at h
  rw [htv] at h
  dsimp only at h
  by_cases hh : isHashable (dictGetD m (.str "name") (.str "Unknown")) = true
  · rw [hk]; exact hh
  · rw [if_neg hh] at h; cases h

/-- The successful `(rg_name, record)` assignments performed by the
resource-group extraction pass, in input order. -/
def TagAnalyzer.rgPairs (a : TagAnalyzer) (items : List PyVal) : List (PyVal × RGInfo) :=
  items.filterMap fun rg =>
    match a.processRG rg with
    | .ok (some p) => some p
    | _ => Option.none

theorem rgPairs_hashable (a : TagAnalyzer) (items : List PyVal) :
    ∀ p ∈ a.rgPairs items, isHashable p.1 = true := by
  intro p hp
  rcases List.mem_filterMap.mp hp with ⟨rg, _, he⟩
  cases hr : a.processRG rg with
  | ok o =>
      cases o with
      | some p' =>
          rw [hr] at he
          dsimp only at he
          cases he
          exact processRG_hashable a rg p.1 p.2 (by rw [hr])
      | none => rw [hr] at he; dsimp only at he; cases he
  | error e => rw [hr] at he; dsimp only at he; cases he

/-- The extraction pass is the left fold of `d[k] = v` assignments over the
successful pairs. -/
theorem extractRGs_eq_foldl (a : TagAnalyzer) :
    ∀ (items : List PyVal) (acc out : List (PyVal × RGInfo)),
      a.extractRGs acc items = .ok out →
      out = (a.rgPairs items).foldl (fun ac p => rgSet ac p.1 p.2) acc := by
  intro items
  induction items with
  | nil =>
      intro acc out h
      unfold TagAnalyzer.extractRGs at h
      cases h
      rfl
  | cons rg rest ih =>
      intro acc out h
      unfold TagAnalyzer.extractRGs at h
      cases hr : a.processRG rg with
      | ok o =>
          rw [hr] at h
          cases o with
          | some ki =>
              have := ih (rgSet acc ki.1 ki.2) out h
              simp only [TagAnalyzer.rgPairs, List.filterMap_cons, hr]
              exact this
          | none =>
              have := ih acc out h
              simp only [TagAnalyzer.rgPairs, List.filterMap_cons, hr]
              exact this
      | error e => rw [hr] at h; cases h

theorem rgSet_keys (xs : List (PyVal × RGInfo)) (k : PyVal) (v : RGInfo) :
    (rgSet xs k v).map (·.1) =
      if xs.any (fun p => pyEq p.1 k) then xs.map (·.1) else xs.map (·.1) ++ [k] := by
  induction xs with
  | nil => simp [rgSet]
  | cons q rest ih =>
      unfold rgSet
      by_cases hq : pyEq q.1 k = true
      · rw [if_pos hq]
        simp [List.any_cons, hq]
      · rw [if_neg hq]
        simp only [List.map_cons, ih, List.any_cons, hq, Bool.false_or]
        by_cases hr : rest.any (fun p => pyEq p.1 k) = true
        · rw [if_pos hr, if_pos hr]
        · rw [if_neg hr, if_neg hr]
          simp

theorem rgSet_of_not_any (xs : List (PyVal × RGInfo)) (k : PyVal) (v : RGInfo)
    (h : xs.any (fun p => pyEq p.1 k) = false) : rgSet xs k v = xs ++ [(k, v)] := by
  induction xs with
  | nil => rfl
  | cons q rest ih =>
      simp only [List.any_cons, Bool.or_eq_false_iff] at h
      unfold rgSet
      rw [if_neg (by simp [h.1]), ih h.2]
      rfl

/-- Members of `rgSet xs k v` have a key from `xs` or the key `k`. -/
theorem rgSet_key_mem (xs : List (PyVal × RGInfo)) (k : PyVal) (v : RGInfo) :
    ∀ p ∈ rgSet xs k v, (∃ q ∈ xs, p.1 = q.1) ∨ p.1 = k := by
  induction xs with
  | nil =>
      intro p hp
      simp [rgSet] at hp
      right; rw [hp]
  | cons q rest ih =>
      intro p hp
      unfold rgSet at hp
      by_cases hq : pyEq q.1 k = true
      · rw [if_pos hq] at hp
        rcases List.mem_cons.mp hp with h | h
        · exact Or.inl ⟨q, List.mem_cons_self _ _, by rw [h]⟩
        · exact Or.inl ⟨p, List.mem_cons_of_mem _ h, rfl⟩
      · rw [if_neg hq] at hp
        rcases List.mem_cons.mp hp with h | h
        · exact Or.inl ⟨q, List.mem_cons_self _ _, by rw [h]⟩
        · rcases ih p h with ⟨r, hr, he⟩ | he
          · exact Or.inl ⟨r, List.mem_cons_of_mem _ hr, he⟩
          · exact Or.inr he

/-- First-occurrence deduplication of Python values under `==`, with the
already-seen values as an accumulator. -/
def pyDedupAux (seen : List PyVal) : List PyVal → List PyVal
  | [] => []
  | x :: xs =>
      if seen.any (fun s => pyEq s x) then pyDedupAux seen xs
      else x :: pyDedupAux (seen ++ [x]) xs

/-- The distinct values of a list under Python `==`, first occurrences
kept in order; models the key set of a dict built by repeated assignment. -/
def pyDedup (xs : List PyVal) : List PyVal := pyDedupAux [] xs

/-- Key-list `any` versus entry `any`. -/
theorem any_map_fst (l : List (PyVal × RGInfo)) (x : PyVal) :
    ((l.map (·.1)).any fun s => pyEq s x) = l.any fun q => pyEq q.1 x := by
  induction l with
  | nil => rfl
  | cons a t iha => simp [List.any_cons, iha]

theorem pyDedupAux_cons (seen : List PyVal) (x : PyVal) (xs : List PyVal) :
    pyDedupAux seen (x :: xs) =
      if seen.any (fun s => pyEq s x) then pyDedupAux seen xs
      else x :: pyDedupAux (seen ++ [x]) xs := rfl

/-- The keys produced by folding `d[k] = v` assignments are the
first-occurrence-distinct assigned names, after the initial keys. -/
theorem foldl_rgSet_keys :
    ∀ (pairs acc : List (PyVal × RGInfo)),
      ((pairs.foldl (fun ac p => rgSet ac p.1 p.2) acc).map (·.1)) =
        acc.map (·.1) ++ pyDedupAux (acc.map (·.1)) (pairs.map (·.1)) := by
  intro pairs
  induction pairs with
  | nil => intro acc; simp [pyDedupAux]
  | cons p rest ih =>
      intro acc
      simp only [List.foldl_cons, List.map_cons]
      rw [ih (rgSet acc p.1 p.2), pyDedupAux_cons]
      have hk := rgSet_keys acc p.1 p.2
      by_cases hc : (acc.any fun q => pyEq q.1 p.1) = true
      · rw [if_pos hc] at hk
        rw [hk, if_pos (by rw [any_map_fst]; exact hc)]
      · rw [if_neg hc] at hk
        rw [hk, if_neg (by rw [any_map_fst]; exact hc)]
        simp

theorem pyEq_diag_trans (x y z : PyVal) (hx : isHashable x = true)
    (hy : isHashable y = true) (hz : isHashable z = true)
    (h1 : pyEq y x = true) (h2 : pyEq y z = true) : pyEq x z = true :=
  (pyEq_hash_iff x z hx hz).mpr
    (((pyEq_hash_iff y x hy hx).mp h1).symm.trans ((pyEq_hash_iff y z hy hz).mp h2))

/-- `d[p1] = v` replaces the first `==`-matching entry in place, keeping
its key object. -/
theorem rgSet_replace (k p1 : PyVal) (hk : isHashable k = true)
    (hp1 : isHashable p1 = true) (hpk : pyEq p1 k = true) (v : RGInfo) :
    ∀ (xs : List (PyVal × RGInfo)), (∀ q ∈ xs, isHashable q.1 = true) →
      ∀ (x : PyVal × RGInfo) (t : List (PyVal × RGInfo)),
        xs.filter (fun p => pyEq p.1 k) = x :: t →
        (rgSet xs p1 v).filter (fun p => pyEq p.1 k) = (x.1, v) :: t := by
  intro xs
  induction xs with
  | nil => intro _ x t h; cases h
  | cons q qs ih =>
      intro hall x t h
      have hQ : isHashable q.1 = true := hall q (List.mem_cons_self _ _)
      have hqs : ∀ p ∈ qs, isHashable p.1 = true :=
        fun p hp => hall p (List.mem_cons_of_mem _ hp)
      have hcongr : pyEq q.1 p1 = pyEq q.1 k := pyEq_congr_right q.1 p1 k hQ hp1 hk hpk
      rw [List.filter_cons] at h
      unfold rgSet
      by_cases hq : pyEq q.1 k = true
      · rw [if_pos hq] at h
        rw [if_pos (by rw [hcongr]; exact hq)]
        rw [List.filter_cons, if_pos (by exact hq)]
        cases h
        rfl
      · rw [if_neg (by simpa using hq)] at h
        rw [if_neg (by rw [hcongr]; simpa using hq)]
        rw [List.filter_cons, if_neg (by simpa using hq)]
        exact ih hqs x t h

/-- `d[p1] = v` for a `p1` that is not `==` to `k` leaves the `k`-matching
entries untouched. -/
theorem rgSet_filter_ne (k p1 : PyVal) (hk : isHashable k = true)
    (hp1 : isHashable p1 = true) (hpk : pyEq p1 k = false) (v : RGInfo) :
    ∀ (xs : List (PyVal × RGInfo)), (∀ q ∈ xs, isHashable q.1 = true) →
      (rgSet xs p1 v).filter (fun p => pyEq p.1 k) = xs.filter (fun p => pyEq p.1 k) := by
  intro xs
  induction xs with
  | nil =>
      intro _
      simp [rgSet, List.filter_cons, hpk]
  | cons q qs ih =>
      intro hall
      have hQ : isHashable q.1 = true := hall q (List.mem_cons_self _ _)
      have hqs : ∀ p ∈ qs, isHashable p.1 = true :=
        fun p hp => hall p (List.mem_cons_of_mem _ hp)
      unfold rgSet
      by_cases hqp : pyEq q.1 p1 = true
      · have hqk : pyEq q.1 k = false := by
          cases hqk : pyEq q.1 k with
          | false => rfl
          | true =>
              have : pyEq p1 k = true := pyEq_diag_trans p1 q.1 k hp1 hQ hk hqp hqk
              rw [this] at hpk
              cases hpk
        rw [if_pos hqp]
        rw [List.filter_cons, List.filter_cons]
        rw [if_neg (by simp [hqk]), if_neg (by simp [hqk])]
      · rw [if_neg hqp]
        rw [List.filter_cons, List.filter_cons]
        by_cases hqk : pyEq q.1 k = true
        · rw [if_pos (by exact hqk), if_pos (by exact hqk), ih hqs]
        · rw [if_neg (by simpa using hqk), if_neg (by simpa using hqk)]
          exact ih hqs

/-- The single surviving entry for a duplicated key: first occurrence's
key object, last occurrence's value. -/
def keyLastVal : List (PyVal × RGInfo) → List (PyVal × RGInfo)
  | [] => []
  | x :: xs => [(x.1, ((x :: xs).getLast (List.cons_ne_nil x xs)).2)]

theorem keyLastVal_absorb (x p : PyVal × RGInfo) (l : List (PyVal × RGInfo)) :
    keyLastVal ((x.1, p.2) :: l) = keyLastVal (x :: p :: l) := by
  cases l with
  | nil => rfl
  | cons r rs =>
      simp [keyLastVal, List.getLast_cons]

/-- Folding the `d[k] = v` assignments: the entries matching a duplicated
name collapse to one, carrying the first assignment's key object and the
last assignment's record. -/
theorem foldl_rgSet_filter (k : PyVal) (hk : isHashable k = true) :
    ∀ (pairs acc : List (PyVal × RGInfo)),
      (∀ p ∈ pairs, isHashable p.1 = true) →
      (∀ p ∈ acc, isHashable p.1 = true) →
      (acc.filter (fun p => pyEq p.1 k)).length ≤ 1 →
      ((pairs.foldl (fun ac p => rgSet ac p.1 p.2) acc).filter (fun p => pyEq p.1 k)) =
        keyLastVal (acc.filter (fun p => pyEq p.1 k) ++ pairs.filter (fun p => pyEq p.1 k)) := by
  intro pairs
  induction pairs with
  | nil =>
      intro acc _ _ hlen
      simp only [List.foldl_nil, List.filter_nil, List.append_nil]
      cases haf : acc.filter (fun p => pyEq p.1 k) with
      | nil => rfl
      | cons x t =>
          rw [haf] at hlen
          cases t with
          | nil => rfl
          | cons r rs => simp at hlen
  | cons p rest ih =>
      intro acc hph hah hlen
      have hp1 : isHashable p.1 = true := hph p (List.mem_cons_self _ _)
      have hph' : ∀ q ∈ rest, isHashable q.1 = true :=
        fun q hq => hph q (List.mem_cons_of_mem _ hq)
      have hah' : ∀ q ∈ rgSet acc p.1 p.2, isHashable q.1 = true := by
        intro q hq
        rcases rgSet_key_mem acc p.1 p.2 q hq with ⟨r, hr, he⟩ | he
        · rw [he]; exact hah r hr
        · rw [he]; exact hp1
      simp only [List.foldl_cons, List.filter_cons]
      by_cases hp : pyEq p.1 k = true
      · rw [if_pos (by exact hp)]
        cases haf : acc.filter (fun q => pyEq q.1 k) with
        | nil =>
            have hnone : acc.any (fun q => pyEq q.1 p.1) = false := by
              rw [List.any_eq_false]
              intro q hq hqe
              have h2 : pyEq q.1 k = true := by
                rw [← pyEq_congr_right q.1 p.1 k (hah q hq) hp1 hk hp]
                exact hqe
              have hmem : q ∈ acc.filter (fun q => pyEq q.1 k) :=
                List.mem_filter.mpr ⟨hq, h2⟩
              rw [haf] at hmem
              cases hmem
            rw [rgSet_of_not_any acc p.1 p.2 hnone]
            rw [ih (acc ++ [(p.1, p.2)]) hph'
              (by
                intro q hq
                rcases List.mem_append.mp hq with h | h
                · exact hah q h
                · rw [List.mem_singleton.mp h]; exact hp1)
              (by
                rw [List.filter_append, haf, List.filter_cons, if_pos (by exact hp)]
                simp)]
            rw [List.filter_append, haf, List.filter_cons, if_pos (by exact hp)]
            rfl
        | cons x t =>
            have ht : t = [] := by
              rw [haf] at hlen
              cases t with
              | nil => rfl
              | cons r rs => simp at hlen
            subst ht
            have hrep := rgSet_replace k p.1 hk hp1 hp p.2 acc hah x [] haf
            rw [ih (rgSet acc p.1 p.2) hph' hah' (by rw [hrep]; simp)]
            rw [hrep]
            simp only [List.cons_append, List.nil_append, List.singleton_append]
            exact keyLastVal_absorb x p (rest.filter (fun q => pyEq q.1 k))
      · rw [if_neg (by simpa using hp)]
        have hflt := rgSet_filter_ne k p.1 hk hp1 (by simpa using hp) p.2 acc hah
        rw [ih (rgSet acc p.1 p.2) hph' hah' (by rw [hflt]; exact hlen), hflt]

theorem rgAppendResource_keys (xs : List (PyVal × RGInfo)) (k : PyVal) (ri : ResourceInfo) :
    (rgAppendResource xs k ri).map (·.1) = xs.map (·.1) := by
  unfold rgAppendResource
  rw [List.map_map]
  apply List.map_congr_left
  intro p _
  by_cases h : pyEq p.1 k = true <;> simp [h]

/-- `resources.append` on one group changes no key and only the matching
entries' member lists. -/
theorem rgAppendResource_filter (xs : List (PyVal × RGInfo)) (k : PyVal) (ri : ResourceInfo)
    (k' : PyVal) :
    (rgAppendResource xs k ri).filter (fun p => pyEq p.1 k') =
      (xs.filter (fun p => pyEq p.1 k')).map
        (fun p => if pyEq p.1 k then (p.1, { p.2 with resources := p.2.resources ++ [ri] })
                  else p) := by
  unfold rgAppendResource
  rw [List.filter_map]
  congr 1
  apply List.filter_congr
  intro p _
  by_cases h : pyEq p.1 k = true <;> simp [h]

/-- Group summaries keep group keys: filtering the summaries on a name is
filtering the table on that key. -/
theorem filter_map_summary (xs : List (PyVal × RGInfo)) (k : PyVal) :
    (xs.map buildRGSummaryEntry).filter (fun e => pyEq e.name k) =
      (xs.filter (fun p => pyEq p.1 k)).map buildRGSummaryEntry := by
  induction xs with
  | nil => rfl
  | cons p t ih =>
      simp only [List.map_cons, List.filter_cons]
      have hname : (buildRGSummaryEntry p).name = p.1 := rfl
      by_cases h : pyEq p.1 k = true
      · rw [if_pos (by rw [hname]; exact h), if_pos (by exact h)]
        rw [List.map_cons, ih]
      · rw [if_neg (by rw [hname]; simpa using h), if_neg (by simpa using h)]
        exact ih

/-- C10: when two or more entries under `resource_groups` carry `==`-equal
names, the report keeps exactly one group entry for that name — the fields
derived from the group record itself (tags, existing/missing tags, invalid
values, own compliance) come from the last such entry in input order,
earlier entries being silently discarded — and `total_resource_groups`
counts distinct names once each. -/
theorem C10_duplicate_rg_last_wins (a : TagAnalyzer) (cat : List (String × PyVal))
    (r : Report) (rgItems : List PyVal) (k : PyVal)
    (h : a.analyze_resource_tags cat = .ok r)
    (h1 : pyIter (catalogGetD cat "resource_groups" (.list [])) = .ok rgItems)
    (hk : isHashable k = true)
    (hdup : 2 ≤ ((a.rgPairs rgItems).filter (fun p => pyEq p.1 k)).length) :
    r.summary.total_resource_groups = (pyDedup ((a.rgPairs rgItems).map (·.1))).length ∧
    ∃ q, ((a.rgPairs rgItems).filter (fun p => pyEq p.1 k)).getLast? = some q ∧
      ∃ e, r.resource_groups_details.filter (fun y => pyEq y.name k) = [e] ∧
        e = buildRGSummaryEntry (e.name, { q.2 with resources := e.resources }) := by
  rcases analyze_ok_elim a cat r h with ⟨rgItems', rgInfo0, s, h1', h2, h3, rfl⟩
  rw [h1] at h1'
  injection h1' with he
  subst he
  have hpairs := rgPairs_hashable a rgItems
  have hfold := extractRGs_eq_foldl a rgItems [] rgInfo0 h2
  have hfk := foldl_rgSet_filter k hk (a.rgPairs rgItems) [] hpairs
    (by intro p hp; cases hp) (by simp)
  rw [← hfold] at hfk
  cases hm : (a.rgPairs rgItems).filter (fun p => pyEq p.1 k) with
  | nil => rw [hm] at hdup; simp at hdup
  | cons x t =>
      have hne : x :: t ≠ [] := List.cons_ne_nil x t
      rw [hm] at hfk
      simp only [List.filter_nil, List.nil_append] at hfk
      have hbase : rgInfo0.filter (fun p => pyEq p.1 k)
          = [(x.1, { ((x :: t).getLast hne).2 with
                resources := ((x :: t).getLast hne).2.resources })] := by
        rw [hfk]; rfl
      have hinv := @analyzeLoop_inv a (fun st =>
          st.resource_groups_info.map (·.1) = rgInfo0.map (·.1) ∧
          ∃ rs, st.resource_groups_info.filter (fun p => pyEq p.1 k)
              = [(x.1, { ((x :: t).getLast hne).2 with resources := rs })])
        (by
          intro ty st m rt htv hP
          obtain ⟨hPk, rs0, hPf⟩ := hP
          have hstep : (a.stepState ty st m rt).resource_groups_info =
              (if rgHas st.resource_groups_info
                    (dictGetD m (.str "resource_group") (.str "N/A"))
               then rgAppendResource st.resource_groups_info
                  (dictGetD m (.str "resource_group") (.str "N/A"))
                  (a.mkResourceInfo ty m rt)
               else st.resource_groups_info) := rfl
          by_cases hhas : rgHas st.resource_groups_info
              (dictGetD m (.str "resource_group") (.str "N/A")) = true
          · constructor
            · rw [hstep, if_pos hhas, rgAppendResource_keys]
              exact hPk
            · rw [hstep, if_pos hhas, rgAppendResource_filter, hPf]
              by_cases hx : pyEq x.1 (dictGetD m (.str "resource_group") (.str "N/A")) = true
              · refine ⟨rs0 ++ [a.mkResourceInfo ty m rt], ?_⟩
                simp only [List.map_cons, List.map_nil]
                rw [if_pos (by exact hx)]
              · refine ⟨rs0, ?_⟩
                simp only [List.map_cons, List.map_nil]
                rw [if_neg (by simpa using hx)]
          · constructor
            · rw [hstep, if_neg hhas]; exact hPk
            · rw [hstep, if_neg hhas]; exact ⟨rs0, hPf⟩)
        cat (initState rgInfo0) s ⟨rfl, ⟨((x :: t).getLast hne).2.resources, hbase⟩⟩ h3
      obtain ⟨hkeys, rs, hsf⟩ := hinv
      constructor
      · calc (a.buildReport s).summary.total_resource_groups
            = s.resource_groups_info.length := rfl
          _ = (s.resource_groups_info.map (·.1)).length := (List.length_map _ _).symm
          _ = (rgInfo0.map (·.1)).length := by rw [hkeys]
          _ = (pyDedup ((a.rgPairs rgItems).map (·.1))).length := by
              rw [hfold, foldl_rgSet_keys]
              simp [pyDedup]
      · refine ⟨(x :: t).getLast hne, List.getLast?_eq_getLast _ hne, ?_⟩
        refine ⟨buildRGSummaryEntry (x.1, { ((x :: t).getLast hne).2 with resources := rs }),
          ?_, rfl⟩
        have hdet : (a.buildReport s).resource_groups_details
            = build_resource_groups_summary s.resource_groups_info := rfl
        rw [hdet]
        unfold build_resource_groups_summary
        have hperm := (pySorted_perm
            (fun x y : RGSummary => decide (x.compliance_rate ≤ y.compliance_rate))
            (s.resource_groups_info.map buildRGSummaryEntry)).filter
          (fun y => pyEq y.name k)
        rw [filter_map_summary, hsf] at hperm
        exact List.perm_singleton.mp hperm

def rgsC10 : List PyVal :=
  [.dict [(.str "name", .str "rg1"), (.str "tags", .dict [])],
   .dict [(.str "name", .str "rg1"),
          (.str "tags", .dict [(.str "Environment", .str "prod")])],
   .dict [(.str "name", .str "rg2"), (.str "tags", .dict [])]]

def catC10w : List (String × PyVal) := [("resource_groups", .list rgsC10)]

def rptC10w : Report := reportOfExcept (aC2w.analyze_resource_tags catC10w)

theorem C10_duplicate_rg_last_wins_witness :
    rptC10w.summary.total_resource_groups
        = (pyDedup ((aC2w.rgPairs rgsC10).map (·.1))).length ∧
    ∃ q, ((aC2w.rgPairs rgsC10).filter (fun p => pyEq p.1 (.str "rg1"))).getLast? = some q ∧
      ∃ e, rptC10w.resource_groups_details.filter
            (fun y => pyEq y.name (.str "rg1")) = [e] ∧
        e = buildRGSummaryEntry (e.name, { q.2 with resources := e.resources }) :=
  C10_duplicate_rg_last_wins aC2w catC10w rptC10w rgsC10 (.str "rg1")
    (by rfl) (by rfl) (by rfl) (by decide)
